import Mathlib

/- Verification development for two CookieTTS modules:
   `CookieTTS/_2_ttm/ExpFESV_AE/loss_function.py` (FESV_AELoss) and
   `CookieTTS/_4_mtw/waveglow/glow_ax.py` (WN / WN_2d coupling networks).
   Tensors are embedded as index functions over exact scalars (ℚ / ℝ);
   the causal ("height") dimension of WN_2d is embedded as a Lean list so
   that queue manipulation is explicit. -/

namespace CookieTTS

/-! ### FESV_AELoss: `loss_function.py` -/

/-- Weight resolution in `FESV_AELoss.colate_losses`: look up `k_weight` in the
per-call `loss_scalars` mapping, then in the instance attributes, else default
to `1.0` (the code also prints a warning in that case). -/
def resolveWeight (attrs : String → Option ℚ) (loss_scalars : String → Option ℚ)
    (k : String) : ℚ :=
  match loss_scalars (k ++ "_weight") with
  | some w => w
  | none =>
    match attrs (k ++ "_weight") with
    | some w => w
    | none => 1

/-- Result of `colate_losses`: the component entries of `loss_dict` (which the
function does not modify) together with the `loss` entry it stores, which
Python leaves as `None` when no term was accumulated. -/
structure LossDict where
  items : List (String × ℚ)
  loss : Option ℚ
  deriving Repr

/-- One iteration of the `colate_losses` loop: resolve the weight of component
`kv` and accumulate `v * loss_scale` into the running optional loss when the
resolved weight is strictly positive. -/
def colateStep (attrs : String → Option ℚ) (loss_scalars : String → Option ℚ)
    (acc : Option ℚ) (kv : String × ℚ) : Option ℚ :=
  if 0 < resolveWeight attrs loss_scalars kv.1 then
    match acc with
    | some l => some (l + kv.2 * resolveWeight attrs loss_scalars kv.1)
    | none => some (kv.2 * resolveWeight attrs loss_scalars kv.1)
  else acc

/-- Shallow embedding of `FESV_AELoss.colate_losses`.  `loss` is the optional
starting accumulator (Python default `None`). -/
def colate_losses (attrs : String → Option ℚ) (loss_dict : List (String × ℚ))
    (loss_scalars : String → Option ℚ) (loss : Option ℚ) : LossDict :=
  { items := loss_dict
    loss := loss_dict.foldl (colateStep attrs loss_scalars) loss }

/-- Modelled from the spec: `get_mask_from_lengths` is imported from
`CookieTTS.utils.model.utils`, which is not part of the provided sources.  Per
the spec it masks out padded time-steps: entry `(b, t)` is true iff
`t < mel_lengths[b]`. -/
def get_mask_from_lengths (lengths : ℕ → ℕ) : ℕ → ℕ → Bool :=
  fun b t => decide (t < lengths b)

/-- The prediction dictionary consumed (and mutated in place) by
`FESV_AELoss.forward`: mel tensors indexed as `(batch, mel-bin, time)`. -/
structure PredDict where
  pred_mel : ℕ → ℕ → ℕ → ℚ
  pred_mel_postnet : ℕ → ℕ → ℕ → ℚ

/-- The ground-truth dictionary consumed by `FESV_AELoss.forward`. -/
structure GTDict where
  gt_mel : ℕ → ℕ → ℕ → ℚ
  mel_lengths : ℕ → ℕ
  audiopath : ℕ → String
  speaker_id_ext : ℕ → ℤ

/-- Mean of a list of rationals (0 for an empty list). -/
def listMean (l : List ℚ) : ℚ := l.sum / l.length

/-- The `(batch, time)` pairs selected by the length mask, in row-major
order, as produced by `masked_select` on a `[B, mel_T]`-shaped mask. -/
def validFrames (B mel_T : ℕ) (lengths : ℕ → ℕ) : List (ℕ × ℕ) :=
  (List.range B).flatMap fun b =>
    ((List.range mel_T).filter fun t => decide (t < lengths b)).map fun t => (b, t)

/-- Masked mean-squared error between two mel tensors, reduced over every
`(b, m, t)` with `t < lengths b` (the semantics of `masked_select` followed by
`MSELoss`). -/
def maskedMSE (B n_mel mel_T : ℕ) (lengths : ℕ → ℕ)
    (p g : ℕ → ℕ → ℕ → ℚ) : ℚ :=
  listMean ((validFrames B mel_T lengths).flatMap fun bt =>
    (List.range n_mel).map fun m => (p bt.1 m bt.2 - g bt.1 m bt.2) ^ 2)

/-- Mean absolute error of one frame `(b, t)` across mel bins, used as the
per-frame factor of the "MFSE" loss. -/
def frameMeanAE (n_mel : ℕ) (p g : ℕ → ℕ → ℕ → ℚ) (bt : ℕ × ℕ) : ℚ :=
  ((List.range n_mel).map fun m => |p bt.1 m bt.2 - g bt.1 m bt.2|).sum / n_mel

/-- The frame-weighted L1 loss ("MFSE"): each per-element L1 error is scaled by
its frame's mean L1 error, then averaged over all selected elements. -/
def maskedMFSE (B n_mel mel_T : ℕ) (lengths : ℕ → ℕ)
    (p g : ℕ → ℕ → ℕ → ℚ) : ℚ :=
  listMean ((validFrames B mel_T lengths).flatMap fun bt =>
    (List.range n_mel).map fun m =>
      |p bt.1 m bt.2 - g bt.1 m bt.2| * frameMeanAE n_mel p g bt)

/-- Per-utterance mean squared error of utterance `i` (the `losses[i].mean()`
recorded in the per-file diagnostics). -/
def uttMSE (n_mel : ℕ) (lengths : ℕ → ℕ) (p g : ℕ → ℕ → ℕ → ℚ) (i : ℕ) : ℚ :=
  listMean (((List.range (lengths i)).flatMap fun t =>
    (List.range n_mel).map fun m => (p i m t - g i m t) ^ 2))

/-- Insert-if-absent used by the first loop of `FESV_AELoss.forward` to build
the `file_losses` dictionary keyed by audio path. -/
def addFileEntry (gt : GTDict) (acc : List (String × ℤ)) (i : ℕ) :
    List (String × ℤ) :=
  if (acc.map Prod.fst).contains (gt.audiopath i) then acc
  else acc ++ [(gt.audiopath i, gt.speaker_id_ext i)]

/-- The per-file diagnostics map: one entry per distinct `audiopath` in first
appearance order; the recorded `spec_MSE` is the per-utterance MSE of the last
batch index with that path (dictionary overwrite semantics). -/
def fileLosses (B n_mel : ℕ) (pred : PredDict) (gt : GTDict) :
    List (String × ℤ × ℚ) :=
  let keys := (List.range B).foldl (addFileEntry gt) []
  keys.map fun ke =>
    let lastIdx := (((List.range B).filter fun i =>
      decide (gt.audiopath i = ke.1)).getLast?).getD 0
    (ke.1, ke.2, uttMSE n_mel gt.mel_lengths pred.pred_mel gt.gt_mel lastIdx)

/-- Result of `FESV_AELoss.forward`.  The `pred` and `gt` fields are the
post-call states of the caller's dictionaries (the code mutates the prediction
tensors in place with `masked_fill_`). -/
structure ForwardResult where
  loss_dict : LossDict
  file_losses : List (String × ℤ × ℚ)
  pred : PredDict
  gt : GTDict

/-- Shallow embedding of `FESV_AELoss.forward` (the spectrogram-reconstruction
section plus loss collation).  `attrs` models `getattr` on the instance. -/
def FESV_AELoss.forward (attrs : String → Option ℚ) (B n_mel mel_T : ℕ)
    (pred : PredDict) (gt : GTDict) (loss_scalars : String → Option ℚ) :
    ForwardResult :=
  let mask := get_mask_from_lengths gt.mel_lengths
  let mask3 : ℕ → ℕ → ℕ → Bool := fun b _ t => mask b t
  let pred_mel_postnet : ℕ → ℕ → ℕ → ℚ := fun b m t =>
    if mask3 b m t then pred.pred_mel_postnet b m t else 0
  let pred_mel : ℕ → ℕ → ℕ → ℚ := fun b m t =>
    if mask3 b m t then pred.pred_mel b m t else 0
  let ld : List (String × ℚ) :=
    [("spec_MSE", maskedMSE B n_mel mel_T gt.mel_lengths pred_mel gt.gt_mel),
     ("postnet_MSE", maskedMSE B n_mel mel_T gt.mel_lengths pred_mel_postnet gt.gt_mel),
     ("spec_MFSE", maskedMFSE B n_mel mel_T gt.mel_lengths pred_mel gt.gt_mel),
     ("postnet_MFSE", maskedMFSE B n_mel mel_T gt.mel_lengths pred_mel_postnet gt.gt_mel)]
  { loss_dict := colate_losses attrs ld loss_scalars none
    file_losses := fileLosses B n_mel pred gt
    pred := { pred_mel := pred_mel, pred_mel_postnet := pred_mel_postnet }
    gt := gt }

/-! ### Rank-3 tensors and the 1D coupling network `WN` (glow_ax.py) -/

/-- A `[B, C, T]` tensor: explicit shape plus an index function.  Reads outside
the declared shape are junk that no faithful operation consumes. -/
structure Ten3 (α : Type) where
  B : ℕ
  C : ℕ
  T : ℕ
  data : ℕ → ℕ → ℕ → α

variable {α : Type} [CommRing α]

/-- The all-zero empty tensor (used only as an unreachable fallback). -/
def Ten3.zero : Ten3 α := ⟨0, 0, 0, fun _ _ _ => 0⟩

/-- Read position `pos` of a time axis of length `T` that has been padded with
`pad` entries on each side: `'zeros'` padding yields 0 outside the valid
range, `'replicate'` padding repeats the edge samples. -/
def padIdxRead (repl : Bool) (T pad : ℕ) (f : ℕ → α) (pos : ℕ) : α :=
  if pos < pad then (if repl then f 0 else 0)
  else if pos - pad < T then f (pos - pad)
  else (if repl then f (T - 1) else 0)

/-- `torch.nn.Conv1d` with the given kernel size, dilation, symmetric padding
and padding mode; output length is `T + 2*pad - dil*(k-1)`. -/
def conv1d (Cin Cout k dil pad : ℕ) (repl : Bool) (w : ℕ → ℕ → ℕ → α)
    (bias : ℕ → α) (x : Ten3 α) : Ten3 α :=
  { B := x.B, C := Cout, T := x.T + 2 * pad - dil * (k - 1),
    data := fun b c t => bias c +
      ∑ ci ∈ Finset.range Cin, ∑ j ∈ Finset.range k,
        w c ci j * padIdxRead repl x.T pad (fun s => x.data b ci s) (t + j * dil) }

/-- Depthwise `Conv1d` (`groups = n_channels`): each output channel sees only
its own input channel. -/
def dwConv1d (k dil pad : ℕ) (repl : Bool) (w : ℕ → ℕ → α) (bias : ℕ → α)
    (x : Ten3 α) : Ten3 α :=
  { B := x.B, C := x.C, T := x.T + 2 * pad - dil * (k - 1),
    data := fun b c t => bias c +
      ∑ j ∈ Finset.range k,
        w c j * padIdxRead repl x.T pad (fun s => x.data b c s) (t + j * dil) }

/-- Channel slice `x[:, lo : lo+len]`. -/
def Ten3.sliceC (x : Ten3 α) (lo len : ℕ) : Ten3 α :=
  { x with C := len, data := fun b c t => x.data b (c + lo) t }

/-- Elementwise sum (shapes agree in every reachable use; the left operand's
shape is kept). -/
def Ten3.add (x y : Ten3 α) : Ten3 α :=
  { x with data := fun b c t => x.data b c t + y.data b c t }

/-- Elementwise function application. -/
def Ten3.map (f : α → α) (x : Ten3 α) : Ten3 α :=
  { x with data := fun b c t => f (x.data b c t) }

/-- `x.chunk(2, 1)`: split the channel axis into two chunks (`⌈C/2⌉` then the
remainder). -/
def Ten3.chunk2 (x : Ten3 α) : Ten3 α × Ten3 α :=
  let c1 := (x.C + 1) / 2
  ({ x with C := c1 },
   { x with C := x.C - c1, data := fun b c t => x.data b (c + c1) t })

/-- Shallow embedding of `fused_add_tanh_sigmoid_multiply`:
`tanh((a+b)[:, :n]) * sigmoid((a+b)[:, n:])`.  The tensor library's `tanh`
and `sigmoid` primitives are passed as the function arguments `th` and `sg`. -/
def fused_add_tanh_sigmoid_multiply (th sg : α → α) (input_a input_b : Ten3 α)
    (n_channels : ℕ) : Ten3 α :=
  { B := input_a.B, C := n_channels, T := input_a.T,
    data := fun b c t =>
      th (input_a.data b c t + input_b.data b c t) *
      sg (input_a.data b (c + n_channels) t + input_b.data b (c + n_channels) t) }

/-- Configuration and parameters of a `WN` instance (1D variant).  Dilations
are the per-layer resolved values (`2**i` by default, or the explicit list /
broadcast integer from `n_layers_dilations_w`). -/
structure WNCfg (α : Type) where
  n_in_channels : ℕ
  n_layers : ℕ
  n_channels : ℕ
  kernel_size : ℕ
  dilations : ℕ → ℕ
  seperable_conv : Bool
  merge_res_skip : Bool
  res_skip : Bool
  padRepl : Bool
  upsample_first : Bool
  cond_out_activation_func : Bool
  startW : ℕ → ℕ → α
  startB : ℕ → α
  endW : ℕ → ℕ → α
  endB : ℕ → α
  inW : ℕ → ℕ → ℕ → ℕ → α
  inB : ℕ → ℕ → α
  dwW : ℕ → ℕ → ℕ → α
  dwB : ℕ → ℕ → α
  pwW : ℕ → ℕ → ℕ → α
  pwB : ℕ → ℕ → α
  resW : ℕ → ℕ → ℕ → α
  resB : ℕ → ℕ → α
  speaker_embed_dim : ℕ
  speaker_embed : ℕ → ℕ → α
  cond_in_channels : ℕ
  cond_kernel_size : ℕ
  cond_hidden_channels : ℕ
  cond_layers : ℕ
  condW : ℕ → ℕ → ℕ → ℕ → α
  condB : ℕ → ℕ → α
  condAct : Option (α → α)

/-- `__init__` zeroes the final `end` 1×1 convolution; every other parameter is
whatever the random initializers produced. -/
def WN.mkFresh (cfg : WNCfg α) : WNCfg α :=
  { cfg with endW := fun _ _ => 0, endB := fun _ => 0 }

/-- In-channel count of conditioning convolution `i` (`dimensions[:-1]`). -/
def WN.condInDim (cfg : WNCfg α) (i : ℕ) : ℕ :=
  if i = 0 then cfg.cond_in_channels + cfg.speaker_embed_dim
  else cfg.cond_hidden_channels

/-- Out-channel count of conditioning convolution `i` (`dimensions[1:]`). -/
def WN.condOutDim (cfg : WNCfg α) (i : ℕ) : ℕ :=
  if i = cfg.cond_layers - 1 then 2 * cfg.n_channels * cfg.n_layers
  else cfg.cond_hidden_channels

/-- The conditioning stack of `WN.forward` (lines 162-165): apply each cond
convolution, following it with the configured activation except that the last
convolution's activation is skipped when `cond_out_activation_func` is off. -/
def WN.applyCondLayers (cfg : WNCfg α) (x : Ten3 α) : Ten3 α :=
  (List.range cfg.cond_layers).foldl (fun s i =>
    let s2 := conv1d (WN.condInDim cfg i) (WN.condOutDim cfg i)
      (2 * cfg.cond_kernel_size - 1) 1 (cfg.cond_kernel_size - 1) cfg.padRepl
      (cfg.condW i) (cfg.condB i) s
    match cfg.condAct with
    | some f =>
      if cfg.cond_out_activation_func ∨ i ≠ cfg.cond_layers - 1 then Ten3.map f s2 else s2
    | none => s2) x

/-- Residual/skip channel count of layer `i` (`res_skip_channels`). -/
def WN.resSkipChannels (cfg : WNCfg α) (i : ℕ) : ℕ :=
  if i < cfg.n_layers - 1 ∧ cfg.merge_res_skip = false then 2 * cfg.n_channels
  else cfg.n_channels

/-- Dilated in-layer convolution of layer `i`: a single weight-normed `Conv1d`
or a depthwise/pointwise pair when `seperable_conv` is set and the kernel is
not 1×1. -/
def WN.inLayerApply (cfg : WNCfg α) (i : ℕ) (x : Ten3 α) : Ten3 α :=
  let dil := cfg.dilations i
  let pad := (cfg.kernel_size * dil - dil) / 2
  if cfg.seperable_conv = false ∨ cfg.kernel_size = 1 then
    conv1d cfg.n_channels (2 * cfg.n_channels) cfg.kernel_size dil pad cfg.padRepl
      (cfg.inW i) (cfg.inB i) x
  else
    conv1d cfg.n_channels (2 * cfg.n_channels) 1 dil 0 cfg.padRepl
      (fun c ci _ => cfg.pwW i c ci) (cfg.pwB i)
      (dwConv1d cfg.kernel_size dil pad cfg.padRepl (cfg.dwW i) (cfg.dwB i) x)

/-- One iteration of the layer loop of `WN.forward` (lines 171-195).  State is
the running main-path tensor and the optional skip accumulator (`output` is
first assigned at `i == 0`). -/
def WN.layerStep (cfg : WNCfg α) (th sg : α → α) (spect : Ten3 α) (i : ℕ)
    (s : Ten3 α × Option (Ten3 α)) : Ten3 α × Option (Ten3 α) :=
  let audio := s.1
  let spec := spect.sliceC (i * 2 * cfg.n_channels) (2 * cfg.n_channels)
  let acts := fused_add_tanh_sigmoid_multiply th sg (WN.inLayerApply cfg i audio)
    spec cfg.n_channels
  let rsa := if cfg.res_skip then
      conv1d cfg.n_channels (WN.resSkipChannels cfg i) 1 1 0 false
        (fun c ci _ => cfg.resW i c ci) (cfg.resB i) acts
    else acts
  if cfg.merge_res_skip = false ∧ i < cfg.n_layers - 1 then
    (audio.add (rsa.sliceC 0 cfg.n_channels),
     match s.2 with
     | none => some (rsa.sliceC cfg.n_channels (rsa.C - cfg.n_channels))
     | some o => some (o.add (rsa.sliceC cfg.n_channels (rsa.C - cfg.n_channels))))
  else
    (audio,
     match s.2 with
     | none => some rsa
     | some o => some (o.add rsa))

/-- Run the first `k` layers of the loop, in order. -/
def WN.runLayers (cfg : WNCfg α) (th sg : α → α) (spect : Ten3 α) :
    ℕ → Ten3 α × Option (Ten3 α) → Ten3 α × Option (Ten3 α)
  | 0, s => s
  | k + 1, s => WN.layerStep cfg th sg spect k (WN.runLayers cfg th sg spect k s)

/-- Shallow embedding of `WN.forward`.  `interp` is the data part of the
`F.interpolate` library primitive (source time length, then target length);
`th`/`sg` are the library `tanh`/`sigmoid`.  With `i == 0` merged into the
`i > 0` case through the optional accumulator, the branch structure matches
lines 154-197 of the source. -/
def WN.forward (cfg : WNCfg α) (th sg : α → α)
    (interp : (ℕ → ℕ → ℕ → α) → ℕ → ℕ → ℕ → ℕ → ℕ → α)
    (audio : Ten3 α) (spect : Ten3 α) (speaker_id : Option (ℕ → ℕ)) :
    Ten3 α × Ten3 α :=
  let audio0 := conv1d cfg.n_in_channels cfg.n_channels 1 1 0 false
    (fun c ci _ => cfg.startW c ci) cfg.startB audio
  let spect1 := if cfg.speaker_embed_dim ≠ 0 ∧ speaker_id.isSome then
      { spect with
        C := spect.C + cfg.speaker_embed_dim,
        data := fun b c t => if c < spect.C then spect.data b c t
          else cfg.speaker_embed ((speaker_id.getD (fun _ => 0)) b) (c - spect.C) }
    else spect
  let spect2 := WN.applyCondLayers cfg spect1
  let spect3 := if cfg.upsample_first = false then
      { B := spect2.B, C := spect2.C, T := audio0.T,
        data := interp spect2.data spect2.T audio0.T }
    else spect2
  let sF := WN.runLayers cfg th sg spect3 cfg.n_layers (audio0, none)
  (conv1d cfg.n_channels (2 * cfg.n_in_channels) 1 1 0 false
    (fun c ci _ => cfg.endW c ci) cfg.endB (sF.2.getD Ten3.zero)).chunk2

/-- The logistic sigmoid on ℝ, the semantics of `torch.sigmoid`. -/
noncomputable def sigmoid (x : ℝ) : ℝ := 1 / (1 + Real.exp (-x))

/-! ### Rank-4 tensors with an explicit causal axis, and `WN_2d` -/

/-- One height-slice of a `[B, C, H, T]` tensor, indexed `(b, c, t)`.  The
causal (height) axis is represented as a Lean list of frames so that queue
manipulation is explicit. -/
abbrev Frame (α : Type) := ℕ → ℕ → ℕ → α

/-- The all-zero frame (`new_zeros` content and `F.pad` filler). -/
def zeroFrame : Frame α := fun _ _ _ => 0

/-- Height indexing with the all-zero frame out of range (convolutions only
read in range). -/
def frameGet (xs : List (Frame α)) (h : ℕ) : Frame α := xs.getD h zeroFrame

/-- Elementwise sum of two frames. -/
def frameAdd (f g : Frame α) : Frame α := fun b c t => f b c t + g b c t

/-- Elementwise sum of two stacks of frames (heights agree in every reachable
use). -/
def addFrames (xs ys : List (Frame α)) : List (Frame α) :=
  List.zipWith frameAdd xs ys

/-- Channel slice `[:, :n]`; materializing the slice leaves zeros outside. -/
def takeCh (n : ℕ) (f : Frame α) : Frame α :=
  fun b c t => if c < n then f b c t else 0

/-- Channel slice `[:, n:]`. -/
def dropCh (n : ℕ) (f : Frame α) : Frame α := fun b c t => f b (c + n) t

/-- `x[:, :, -k:]`: the last `k` height entries (all of them when fewer). -/
def lastN (k : ℕ) (xs : List (Frame α)) : List (Frame α) :=
  xs.drop (xs.length - k)

/-- Convolution along the height axis: output height `H - dh*(kh-1)` (the
source never pads the causal axis inside the convolution); `F` combines the
`kh` dilated input slices into one output slice. -/
def hConv (kh dh : ℕ) (F : (ℕ → Frame α) → Frame α) (xs : List (Frame α)) :
    List (Frame α) :=
  (List.range (xs.length - dh * (kh - 1))).map fun j =>
    F fun i => frameGet xs (j + i * dh)

/-- Frame combiner of a full `Conv2d`: bias plus the weighted sum over input
channels and both kernel axes, with `'zeros'` padding `padW` on the time axis
of length `T`. -/
def convComb (Cin kh kw dw padW T : ℕ) (w : ℕ → ℕ → ℕ → ℕ → α) (bias : ℕ → α)
    (g : ℕ → Frame α) : Frame α :=
  fun b c t => bias c +
    ∑ ci ∈ Finset.range Cin, ∑ i ∈ Finset.range kh, ∑ j ∈ Finset.range kw,
      w c ci i j * padIdxRead false T padW (fun s => g i b ci s) (t + j * dw)

/-- Frame combiner of a depthwise `Conv2d` (`groups = n_channels`): each
output channel sees only its own input channel. -/
def dwComb (kh kw dw padW T : ℕ) (w : ℕ → ℕ → ℕ → α) (bias : ℕ → α)
    (g : ℕ → Frame α) : Frame α :=
  fun b c t => bias c +
    ∑ i ∈ Finset.range kh, ∑ j ∈ Finset.range kw,
      w c i j * padIdxRead false T padW (fun s => g i b c s) (t + j * dw)

/-- A 1×1 `Conv2d`, acting on each height slice independently. -/
def conv1x1Frame (Cin : ℕ) (w : ℕ → ℕ → α) (bias : ℕ → α) (f : Frame α) :
    Frame α :=
  fun b c t => bias c + ∑ ci ∈ Finset.range Cin, w c ci * f b ci t

/-- Frame form of `fused_add_tanh_sigmoid_multiply` as `WN_2d` uses it: the
conditioning tensor has height 1 and broadcasts across the height axis. -/
def fusedFrame (th sg : α → α) (a spec : Frame α) (n_channels : ℕ) : Frame α :=
  fun b c t =>
    th (a b c t + spec b c t) *
    sg (a b (c + n_channels) t + spec b (c + n_channels) t)

/-- `transpose(1, 0)` at frame level: the end projection swaps the batch and
coupling-parameter axes. -/
def transpose10 (f : Frame α) : Frame α := fun z b t => f b z t

/-- `Conv1d` on the conditioning signal in frame form (no dilation). -/
def condConv (Cin k pad : ℕ) (repl : Bool) (w : ℕ → ℕ → ℕ → α) (bias : ℕ → α)
    (T : ℕ) (sp : Frame α) : Frame α :=
  fun b c t => bias c +
    ∑ ci ∈ Finset.range Cin, ∑ j ∈ Finset.range k,
      w c ci j * padIdxRead repl T pad (fun s => sp b ci s) (t + j)

/-- Configuration and parameters of a `WN_2d` instance.  Dilations are the
per-layer resolved values from `n_layers_dilations_w` / `n_layers_dilations_h`
(an integer is broadcast to all layers; width defaults to `2**i`). -/
structure WN2dCfg (α : Type) where
  n_layers : ℕ
  n_channels : ℕ
  kernel_size_w : ℕ
  kernel_size_h : ℕ
  dil_w : ℕ → ℕ
  dil_h : ℕ → ℕ
  seperable_conv : Bool
  merge_res_skip : Bool
  res_skip : Bool
  upsample_first : Bool
  padRepl : Bool
  startW : ℕ → ℕ → α
  startB : ℕ → α
  endW : ℕ → ℕ → α
  endB : ℕ → α
  inW : ℕ → ℕ → ℕ → ℕ → ℕ → α
  inB : ℕ → ℕ → α
  dwW : ℕ → ℕ → ℕ → ℕ → α
  dwB : ℕ → ℕ → α
  pwW : ℕ → ℕ → ℕ → α
  pwB : ℕ → ℕ → α
  resW : ℕ → ℕ → ℕ → α
  resB : ℕ → ℕ → α
  speaker_embed_dim : ℕ
  speaker_embed : ℕ → ℕ → α
  cond_in_channels : ℕ
  cond_kernel_size : ℕ
  cond_hidden_channels : ℕ
  cond_layers : ℕ
  condW : ℕ → ℕ → ℕ → ℕ → α
  condB : ℕ → ℕ → α
  condAct : Option (α → α)

/-- Causal padding of layer `i` (line 286 of the source):
`(kernel_size_h - 1) * dilation_h[i]`. -/
def WN_2d.padding_h (cfg : WN2dCfg α) (i : ℕ) : ℕ :=
  (cfg.kernel_size_h - 1) * cfg.dil_h i

/-- The `self.padding_h` list exactly as the `__init__` loop appends it. -/
def WN_2d.paddingList (cfg : WN2dCfg α) : List ℕ :=
  (List.range cfg.n_layers).map fun i => WN_2d.padding_h cfg i

/-- In-channel count of conditioning convolution `i` of `WN_2d`. -/
def WN_2d.condInDim (cfg : WN2dCfg α) (i : ℕ) : ℕ :=
  if i = 0 then cfg.cond_in_channels + cfg.speaker_embed_dim
  else cfg.cond_hidden_channels

/-- Out-channel count of conditioning convolution `i` of `WN_2d`. -/
def WN_2d.condOutDim (cfg : WN2dCfg α) (i : ℕ) : ℕ :=
  if i = cfg.cond_layers - 1 then 2 * cfg.n_channels * cfg.n_layers
  else cfg.cond_hidden_channels

/-- Conditioning computation of `WN_2d.forward` (lines 324-338): speaker
concat, conditioning convolutions (activation after every one), upsample to
the audio time length (`interp` is the `F.interpolate` primitive's data) and
the height unsqueeze, a no-op in frame form. -/
def WN_2d.processSpect (cfg : WN2dCfg α)
    (interp : (ℕ → ℕ → ℕ → α) → ℕ → ℕ → ℕ → ℕ → ℕ → α)
    (spect : Frame α) (T_cond T : ℕ) (speaker_id : Option (ℕ → ℕ)) : Frame α :=
  let sp1 : Frame α := if cfg.speaker_embed_dim ≠ 0 ∧ speaker_id.isSome then
      fun b c t => if c < cfg.cond_in_channels then spect b c t
        else cfg.speaker_embed ((speaker_id.getD (fun _ => 0)) b)
          (c - cfg.cond_in_channels)
    else spect
  let sp2 := (List.range cfg.cond_layers).foldl (fun s i =>
    let s2 := condConv (WN_2d.condInDim cfg i) (2 * cfg.cond_kernel_size - 1)
      (cfg.cond_kernel_size - 1) cfg.padRepl (cfg.condW i) (cfg.condB i) T_cond s
    match cfg.condAct with
    | some f => fun b c t => f (s2 b c t)
    | none => s2) sp1
  if cfg.upsample_first = false then interp sp2 T_cond T else sp2

/-- The conditioning slice of layer `i`: `spect[:, i*2C : (i+1)*2C]`. -/
def WN_2d.condSlice (cfg : WN2dCfg α) (sp : Frame α) (i : ℕ) : Frame α :=
  fun b c t => sp b (i * 2 * cfg.n_channels + c) t

/-- Dilated in-layer convolution of layer `i` of `WN_2d`: one `Conv2d`, or a
depthwise/pointwise pair when `seperable_conv` is set and the kernel is not
1×1. -/
def WN_2d.inLayerApply (cfg : WN2dCfg α) (T : ℕ) (i : ℕ)
    (xs : List (Frame α)) : List (Frame α) :=
  let dw := cfg.dil_w i
  let dh := cfg.dil_h i
  let padW := ((cfg.kernel_size_w - 1) * dw) / 2
  if cfg.seperable_conv = false ∨ (cfg.kernel_size_w = 1 ∧ cfg.kernel_size_h = 1) then
    hConv cfg.kernel_size_h dh
      (convComb cfg.n_channels cfg.kernel_size_h cfg.kernel_size_w dw padW T
        (cfg.inW i) (cfg.inB i)) xs
  else
    (hConv cfg.kernel_size_h dh
      (dwComb cfg.kernel_size_h cfg.kernel_size_w dw padW T (cfg.dwW i)
        (cfg.dwB i)) xs).map
      (conv1x1Frame cfg.n_channels (cfg.pwW i) (cfg.pwB i))

/-- Python runtime errors surfaced by `WN_2d.forward`. -/
inductive PyErr where
  | assertError (msg : String)
  | attributeError (msg : String)
  deriving Repr, DecidableEq

/-- The dynamic return value of `WN_2d.forward`: a bare tensor, or the list
`[output, audio_queues]`, optionally extended with `spect_queues`. -/
inductive WNRet (α : Type) where
  | tensor (out : List (Frame α))
  | withState (out : List (Frame α)) (aq : List (Option (List (Frame α))))
      (sq : Option (List (Option (Frame α))))

/-- Mutable state of the layer loop of `WN_2d.forward`: the main-path stack,
the skip accumulator, both queue collections, and the Python variable `spec`
(which leaks across iterations and is read by the dead cache-store branch). -/
structure LState (α : Type) where
  audio : List (Frame α)
  output : List (Frame α)
  aq : Option (List (Option (List (Frame α))))
  sq : Option (List (Option (Frame α)))
  spec : Frame α

/-- One causal-queue update (line 358): append the new height slices to the
queue (lazily zero-initialized to `pad` historical entries when absent) and
keep only the last `pad+1` height entries, oldest discarded first. -/
def WN_2d.queueStep (pad : ℕ) (qentry : Option (List (Frame α)))
    (audio : List (Frame α)) : List (Frame α) :=
  lastN (pad + 1)
    ((match qentry with
      | none => List.replicate pad zeroFrame
      | some q => q) ++ audio)

/-- One iteration of the layer loop of `WN_2d.forward` (lines 340-383). -/
def WN_2d.layerBody (cfg : WN2dCfg α) (th sg : α → α) (pspect : Frame α)
    (needSpec : Bool) (T : ℕ) (i : ℕ) (s : LState α) : Except PyErr (LState α) :=
  let specSq : Frame α × Option (List (Option (Frame α))) :=
    if needSpec then (WN_2d.condSlice cfg pspect i, s.sq)
    else
      match s.sq with
      | none => (s.spec, none)
      | some l =>
        match l.getD i none with
        | none => (s.spec, some (l.set i (some s.spec)))
        | some sp => (sp, some l)
  let spec := specSq.1
  let cpadAq : Except PyErr (List (Frame α) × Option (List (Option (List (Frame α))))) :=
    match s.aq with
    | none => .ok (List.replicate (WN_2d.padding_h cfg i) zeroFrame ++ s.audio, none)
    | some ql =>
      let q1 := WN_2d.queueStep (WN_2d.padding_h cfg i) (ql.getD i none) s.audio
      if q1.length = WN_2d.padding_h cfg i + 1 then .ok (q1, some (ql.set i (some q1)))
      else .error (.assertError "conv queue is wrong length")
  match cpadAq with
  | .error e => .error e
  | .ok (audio_cpad, aq1) =>
    let acts := (WN_2d.inLayerApply cfg T i audio_cpad).map fun f =>
      fusedFrame th sg f spec cfg.n_channels
    let rsa := if cfg.res_skip then
        acts.map (conv1x1Frame cfg.n_channels (cfg.resW i) (cfg.resB i))
      else acts
    if cfg.merge_res_skip = false ∧ i < cfg.n_layers - 1 then
      .ok { audio := addFrames s.audio (rsa.map (takeCh cfg.n_channels)),
            output := if i = 0 then rsa.map (dropCh cfg.n_channels)
              else addFrames s.output (rsa.map (dropCh cfg.n_channels)),
            aq := aq1, sq := specSq.2, spec := spec }
    else
      .ok { audio := s.audio,
            output := if i = 0 then rsa else addFrames s.output rsa,
            aq := aq1, sq := specSq.2, spec := spec }

/-- Run the first `k` iterations of the layer loop, in order. -/
def WN_2d.runLayers (cfg : WN2dCfg α) (th sg : α → α) (pspect : Frame α)
    (needSpec : Bool) (T : ℕ) : ℕ → LState α → Except PyErr (LState α)
  | 0, s => .ok s
  | k + 1, s =>
    match WN_2d.runLayers cfg th sg pspect needSpec T k s with
    | .error e => .error e
    | .ok s2 => WN_2d.layerBody cfg th sg pspect needSpec T k s2

/-- Shallow embedding of `WN_2d.forward` (lines 316-392).  The raw audio is a
list of causal (height) slices, each a `[B, T]` index function; `T` is the
declared time length and `T_cond` the conditioning time length. -/
def WN_2d.forward (cfg : WN2dCfg α) (th sg : α → α)
    (interp : (ℕ → ℕ → ℕ → α) → ℕ → ℕ → ℕ → ℕ → ℕ → α)
    (audio : List (ℕ → ℕ → α)) (spect : Frame α) (T_cond T : ℕ)
    (speaker_id : Option (ℕ → ℕ))
    (audio_queues : Option (List (Option (List (Frame α)))))
    (spect_queues : Option (List (Option (Frame α)))) :
    Except PyErr (WNRet α) :=
  let audio0 := audio.map fun f =>
    conv1x1Frame 1 cfg.startW cfg.startB fun b _ t => f b t
  let output0 := if cfg.merge_res_skip then audio0 else audio0.map fun _ => zeroFrame
  let needSpec : Bool := match spect_queues with
    | none => true
    | some l => l.any fun x => x.isNone
  let pspect := if needSpec then
      WN_2d.processSpect cfg interp spect T_cond T speaker_id
    else zeroFrame
  match WN_2d.runLayers cfg th sg pspect needSpec T cfg.n_layers
    { audio := audio0, output := output0, aq := audio_queues,
      sq := spect_queues, spec := zeroFrame } with
  | .error e => .error e
  | .ok sF =>
    let out := sF.output.map fun f =>
      transpose10 (conv1x1Frame cfg.n_channels cfg.endW cfg.endB f)
    match sF.aq, sF.sq with
    | some a, some s2 => .ok (.withState out a (some s2))
    | some a, none => .ok (.withState out a none)
    | none, some _ => .error (.attributeError "Tensor object has no attribute append")
    | none, none => .ok (.tensor out)

/-- The claim's streaming driver: one `WN_2d.forward` call per causal slice,
threading the returned `audio_queues` into the next call, concatenating the
step outputs along the causal axis. -/
def WN_2d.streamRun (cfg : WN2dCfg α) (th sg : α → α)
    (interp : (ℕ → ℕ → ℕ → α) → ℕ → ℕ → ℕ → ℕ → ℕ → α)
    (spect : Frame α) (T_cond T : ℕ) (speaker_id : Option (ℕ → ℕ)) :
    List (ℕ → ℕ → α) → List (Option (List (Frame α))) →
    Except PyErr (List (Frame α) × List (Option (List (Frame α))))
  | [], q => .ok ([], q)
  | sl :: rest, q =>
    match WN_2d.forward cfg th sg interp [sl] spect T_cond T speaker_id
      (some q) none with
    | .error e => .error e
    | .ok (.tensor _) => .error (.assertError "missing stream state")
    | .ok (.withState out a _) =>
      match WN_2d.streamRun cfg th sg interp spect T_cond T speaker_id rest a with
      | .error e => .error e
      | .ok (outs, qf) => .ok (out ++ outs, qf)

/-- The causal window that layer `i`'s convolution consumes at step `h` when
the batch-mode layer input is `A`: the last `pad+1` entries of the zero-padded
input truncated after position `h`. -/
def WN_2d.window (cfg : WN2dCfg α) (A : List (Frame α)) (i h : ℕ) :
    List (Frame α) :=
  lastN (WN_2d.padding_h cfg i + 1)
    ((List.replicate (WN_2d.padding_h cfg i) zeroFrame ++ A).take
      (WN_2d.padding_h cfg i + h + 1))

/-- The pure state transformation a batch-mode (`audio_queues = None`) layer
iteration applies to `(audio, output)`. -/
def WN_2d.batchBody (cfg : WN2dCfg α) (th sg : α → α) (pspect : Frame α)
    (T i : ℕ) (audio output : List (Frame α)) :
    List (Frame α) × List (Frame α) :=
  let audio_cpad := List.replicate (WN_2d.padding_h cfg i) zeroFrame ++ audio
  let acts := (WN_2d.inLayerApply cfg T i audio_cpad).map fun f =>
    fusedFrame th sg f (WN_2d.condSlice cfg pspect i) cfg.n_channels
  let rsa := if cfg.res_skip then
      acts.map (conv1x1Frame cfg.n_channels (cfg.resW i) (cfg.resB i))
    else acts
  if cfg.merge_res_skip = false ∧ i < cfg.n_layers - 1 then
    (addFrames audio (rsa.map (takeCh cfg.n_channels)),
     if i = 0 then rsa.map (dropCh cfg.n_channels)
     else addFrames output (rsa.map (dropCh cfg.n_channels)))
  else
    (audio, if i = 0 then rsa else addFrames output rsa)

/-- The pure state transformation a streaming-mode layer iteration applies:
first component the new `(audio, output)`, second the consumed window that is
also stored back into the queue slot. -/
def WN_2d.streamBody (cfg : WN2dCfg α) (th sg : α → α) (pspect : Frame α)
    (T i : ℕ) (audio output : List (Frame α)) (qe : Option (List (Frame α))) :
    (List (Frame α) × List (Frame α)) × List (Frame α) :=
  let q1 := WN_2d.queueStep (WN_2d.padding_h cfg i) qe audio
  let acts := (WN_2d.inLayerApply cfg T i q1).map fun f =>
    fusedFrame th sg f (WN_2d.condSlice cfg pspect i) cfg.n_channels
  let rsa := if cfg.res_skip then
      acts.map (conv1x1Frame cfg.n_channels (cfg.resW i) (cfg.resB i))
    else acts
  (if cfg.merge_res_skip = false ∧ i < cfg.n_layers - 1 then
    (addFrames audio (rsa.map (takeCh cfg.n_channels)),
     if i = 0 then rsa.map (dropCh cfg.n_channels)
     else addFrames output (rsa.map (dropCh cfg.n_channels)))
  else
    (audio, if i = 0 then rsa else addFrames output rsa), q1)

/-- The (error-free) batch-mode loop state after `k` layers. -/
def WN_2d.batchState (cfg : WN2dCfg α) (th sg : α → α) (pspect : Frame α)
    (T : ℕ) (s0 : LState α) (k : ℕ) : LState α :=
  match WN_2d.runLayers cfg th sg pspect true T k s0 with
  | .ok s => s
  | .error _ => s0

/-- Expected streaming queue collection at step `h` with the first `upto`
layers already processed, where `A j` is the batch-mode input of layer `j`. -/
def WN_2d.qexp (cfg : WN2dCfg α) (A : ℕ → List (Frame α)) (h upto : ℕ) :
    List (Option (List (Frame α))) :=
  (List.range cfg.n_layers).map fun j =>
    if j < upto then some (WN_2d.window cfg (A j) j h)
    else if h = 0 then none else some (WN_2d.window cfg (A j) j (h - 1))

/-- The loop state `WN_2d.forward` builds before entering the layer loop
(lines 317-321), in batch mode (`audio_queues = spect_queues = None`). -/
def WN_2d.batchInit (cfg : WN2dCfg α) (audio : List (ℕ → ℕ → α)) : LState α :=
  { audio := List.map (fun f => conv1x1Frame 1 cfg.startW cfg.startB
      fun b _ t => f b t) audio,
    output := if cfg.merge_res_skip then
        List.map (fun f => conv1x1Frame 1 cfg.startW cfg.startB
          fun b _ t => f b t) audio
      else List.map (fun _ => zeroFrame)
        (List.map (fun f => conv1x1Frame 1 cfg.startW cfg.startB
          fun b _ t => f b t) audio),
    aq := none, sq := none, spec := zeroFrame }

/-- Batch-mode layer-`j` input stack for a given raw audio. -/
def WN_2d.batchAudio (cfg : WN2dCfg α) (th sg : α → α) (pspect : Frame α)
    (T : ℕ) (audio : List (ℕ → ℕ → α)) (j : ℕ) : List (Frame α) :=
  (WN_2d.batchState cfg th sg pspect T (WN_2d.batchInit cfg audio) j).audio

/-- Batch-mode output stack (skip accumulator pushed through the `end`
convolution, lines 385-386) for a given raw audio. -/
def WN_2d.batchOut (cfg : WN2dCfg α) (th sg : α → α) (pspect : Frame α)
    (T : ℕ) (audio : List (ℕ → ℕ → α)) : List (Frame α) :=
  (WN_2d.batchState cfg th sg pspect T (WN_2d.batchInit cfg audio)
    cfg.n_layers).output.map
    fun f => transpose10 (conv1x1Frame cfg.n_channels cfg.endW cfg.endB f)

/-! ### Specification-side definitions used by theorem statements -/

/-- The components of `loss_dict` whose resolved weight is strictly
positive. -/
def positiveComponents (attrs loss_scalars : String → Option ℚ)
    (d : List (String × ℚ)) : List (String × ℚ) :=
  d.filter fun kv => decide (0 < resolveWeight attrs loss_scalars kv.1)

/-- Weighted sum over exactly the strictly-positive-weight components. -/
def weightedSum (attrs loss_scalars : String → Option ℚ)
    (d : List (String × ℚ)) : ℚ :=
  ((positiveComponents attrs loss_scalars d).map fun kv =>
    kv.2 * resolveWeight attrs loss_scalars kv.1).sum

/-- A tiny concrete `WN` configuration over ℚ used to instantiate theorems
with hypotheses. -/
def sampleWNCfg : WNCfg ℚ :=
  { n_in_channels := 1, n_layers := 1, n_channels := 2, kernel_size := 3,
    dilations := fun _ => 1, seperable_conv := false, merge_res_skip := false,
    res_skip := true, padRepl := false, upsample_first := false,
    cond_out_activation_func := true,
    startW := fun _ _ => 1, startB := fun _ => 0,
    endW := fun _ _ => 1, endB := fun _ => 0,
    inW := fun _ _ _ _ => 1, inB := fun _ _ => 0,
    dwW := fun _ _ _ => 1, dwB := fun _ _ => 0,
    pwW := fun _ _ _ => 1, pwB := fun _ _ => 0,
    resW := fun _ _ _ => 1, resB := fun _ _ => 0,
    speaker_embed_dim := 0, speaker_embed := fun _ _ => 0,
    cond_in_channels := 1, cond_kernel_size := 1, cond_hidden_channels := 1,
    cond_layers := 1, condW := fun _ _ _ _ => 1, condB := fun _ _ => 0,
    condAct := none }

/-- A tiny concrete `WN_2d` configuration over ℚ (one layer, causal kernel
height 2, so the causal padding is 1). -/
def sample2dCfg : WN2dCfg ℚ :=
  { n_layers := 1, n_channels := 2, kernel_size_w := 1, kernel_size_h := 2,
    dil_w := fun _ => 1, dil_h := fun _ => 1,
    seperable_conv := false, merge_res_skip := false, res_skip := true,
    upsample_first := false, padRepl := false,
    startW := fun _ _ => 1, startB := fun _ => 0,
    endW := fun _ _ => 1, endB := fun _ => 0,
    inW := fun _ _ _ _ _ => 1, inB := fun _ _ => 0,
    dwW := fun _ _ _ _ => 1, dwB := fun _ _ => 0,
    pwW := fun _ _ _ => 1, pwB := fun _ _ => 0,
    resW := fun _ _ _ => 1, resB := fun _ _ => 0,
    speaker_embed_dim := 0, speaker_embed := fun _ _ => 0,
    cond_in_channels := 1, cond_kernel_size := 1, cond_hidden_channels := 1,
    cond_layers := 1, condW := fun _ _ _ _ => 1, condB := fun _ _ => 0,
    condAct := none }

/-- Identity stand-ins for the scalar library primitives when instantiating
over ℚ. -/
def qid : ℚ → ℚ := fun x => x

/-- A concrete interpolation primitive for ℚ instantiations. -/
def qinterp : (ℕ → ℕ → ℕ → ℚ) → ℕ → ℕ → ℕ → ℕ → ℕ → ℚ := fun d _ _ => d

/-- A concrete conditioning input for ℚ instantiations. -/
def qspect : Frame ℚ := fun b c t => (b + 2 * c + 3 * t + 1 : ℚ) / 4

/-- A concrete raw causal slice for ℚ instantiations. -/
def qslice : ℕ → ℕ → ℚ := fun b t => (b + t + 1 : ℚ) / 2

/-! ### Theorems: loss collation and `FESV_AELoss.forward` -/

theorem colate_foldl_some (attrs ls : String → Option ℚ) (d : List (String × ℚ)) :
    ∀ x : ℚ, d.foldl (colateStep attrs ls) (some x) = some (x + weightedSum attrs ls d) := by
  induction d with
  | nil => intro x; simp [weightedSum, positiveComponents]
  | cons kv rest ih =>
    intro x
    simp only [List.foldl_cons, colateStep]
    by_cases h : 0 < resolveWeight attrs ls kv.1
    · rw [if_pos h, ih]
      have hc : positiveComponents attrs ls (kv :: rest)
          = kv :: positiveComponents attrs ls rest := by
        simp [positiveComponents, List.filter_cons, h]
      simp [weightedSum, hc, add_assoc]
    · rw [if_neg h, ih]
      have hc : positiveComponents attrs ls (kv :: rest)
          = positiveComponents attrs ls rest := by
        simp [positiveComponents, List.filter_cons, h]
      simp [weightedSum, hc]

theorem colate_foldl_none (attrs ls : String → Option ℚ) (d : List (String × ℚ)) :
    d.foldl (colateStep attrs ls) none =
      if positiveComponents attrs ls d = [] then none
      else some (weightedSum attrs ls d) := by
  induction d with
  | nil => simp [positiveComponents]
  | cons kv rest ih =>
    simp only [List.foldl_cons, colateStep]
    by_cases h : 0 < resolveWeight attrs ls kv.1
    · rw [if_pos h, colate_foldl_some]
      have hc : positiveComponents attrs ls (kv :: rest)
          = kv :: positiveComponents attrs ls rest := by
        simp [positiveComponents, List.filter_cons, h]
      simp [weightedSum, hc]
    · rw [if_neg h, ih]
      have hc : positiveComponents attrs ls (kv :: rest)
          = positiveComponents attrs ls rest := by
        simp [positiveComponents, List.filter_cons, h]
      simp only [weightedSum, hc]

/-- C6: `colate_losses` sets `loss` to the sum of `weight * value` over
exactly the components with strictly positive resolved weight (weights
resolved from `loss_scalars`, then instance attributes, then the default 1),
while other components are excluded from the sum but keep their original
value in the returned mapping. -/
theorem colate_losses_weighted_sum (attrs ls : String → Option ℚ)
    (d : List (String × ℚ))
    (hpos : (d.any fun kv => decide (0 < resolveWeight attrs ls kv.1)) = true) :
    (colate_losses attrs d ls none).loss = some (weightedSum attrs ls d) ∧
    (colate_losses attrs d ls none).items = d := by
  refine ⟨?_, rfl⟩
  have hne : positiveComponents attrs ls d ≠ [] := by
    intro hnil
    rcases List.any_eq_true.1 hpos with ⟨kv, hmem, hkv⟩
    have : kv ∈ positiveComponents attrs ls d := List.mem_filter.2 ⟨hmem, hkv⟩
    simp [hnil] at this
  simp [colate_losses, colate_foldl_none, hne]

/-- Witness for C6, the example of the claim: `loss_dict = a ↦ 2, b ↦ 3`,
`loss_scalars = a_weight ↦ 0`, no attribute defaults: `loss == 3` and the
component `a` keeps the value 2. -/
theorem colate_losses_weighted_sum_witness :
    (([("a", (2 : ℚ)), ("b", 3)].any fun kv =>
      decide (0 < resolveWeight (fun _ => none)
        (fun s => if s = "a_weight" then some 0 else none) kv.1)) = true) ∧
    (colate_losses (fun _ => none) [("a", (2 : ℚ)), ("b", 3)]
      (fun s => if s = "a_weight" then some 0 else none) none).loss = some 3 ∧
    (colate_losses (fun _ => none) [("a", (2 : ℚ)), ("b", 3)]
      (fun s => if s = "a_weight" then some 0 else none) none).items =
      [("a", 2), ("b", 3)] := by
  refine ⟨by decide, ?_, ?_⟩
  · have h := colate_losses_weighted_sum (fun _ => none)
      (fun s => if s = "a_weight" then some 0 else none)
      [("a", (2 : ℚ)), ("b", 3)] (by decide)
    rw [h.1]
    simp [weightedSum, positiveComponents, resolveWeight]
  · exact (colate_losses_weighted_sum (fun _ => none)
      (fun s => if s = "a_weight" then some 0 else none)
      [("a", (2 : ℚ)), ("b", 3)] (by decide)).2

/-- C10: when every component resolves to a weight `≤ 0` (and the `loss`
argument is the default `None`), `colate_losses` stores `None` into
`loss_dict['loss']` rather than a zero value (and, being a total function
here, raises no error). -/
theorem colate_losses_all_nonpositive (attrs ls : String → Option ℚ)
    (d : List (String × ℚ))
    (hnp : ∀ kv ∈ d, resolveWeight attrs ls kv.1 ≤ 0) :
    (colate_losses attrs d ls none).loss = none := by
  have hnil : positiveComponents attrs ls d = [] := by
    refine List.filter_eq_nil_iff.2 ?_
    intro kv hmem
    simpa using not_lt.2 (hnp kv hmem)
  simp [colate_losses, colate_foldl_none, hnil]

/-- Witness for C10: one component `a ↦ 2` with `a_weight = 0` produces
`loss = None`. -/
theorem colate_losses_all_nonpositive_witness :
    (∀ kv ∈ [("a", (2 : ℚ))], resolveWeight (fun _ => none)
      (fun s => if s = "a_weight" then some 0 else none) kv.1 ≤ 0) ∧
    (colate_losses (fun _ => none) [("a", (2 : ℚ))]
      (fun s => if s = "a_weight" then some 0 else none) none).loss = none := by
  refine ⟨by decide, ?_⟩
  exact colate_losses_all_nonpositive (fun _ => none)
    (fun s => if s = "a_weight" then some 0 else none)
    [("a", (2 : ℚ))] (by decide)

/-- C9: `FESV_AELoss.forward` overwrites, in the caller's prediction tensors,
every time-step at or beyond the utterance's `mel_lengths` with 0.0 (the
in-place `masked_fill_`), and leaves the ground-truth dictionary unchanged. -/
theorem FESV_AELoss.forward_masks_pred_in_place
    (attrs : String → Option ℚ) (B n_mel mel_T : ℕ) (pred : PredDict)
    (gt : GTDict) (ls : String → Option ℚ) :
    (∀ b m t, (FESV_AELoss.forward attrs B n_mel mel_T pred gt ls).pred.pred_mel b m t
        = if t < gt.mel_lengths b then pred.pred_mel b m t else 0) ∧
    (∀ b m t, (FESV_AELoss.forward attrs B n_mel mel_T pred gt ls).pred.pred_mel_postnet b m t
        = if t < gt.mel_lengths b then pred.pred_mel_postnet b m t else 0) ∧
    (FESV_AELoss.forward attrs B n_mel mel_T pred gt ls).gt = gt := by
  refine ⟨?_, ?_, rfl⟩ <;>
    · intro b m t
      by_cases h : t < gt.mel_lengths b <;>
        simp [FESV_AELoss.forward, get_mask_from_lengths, h]

/-! ### Theorems: `fused_add_tanh_sigmoid_multiply` (C8) -/

theorem abs_tanh_le_one (x : ℝ) : |Real.tanh x| ≤ 1 := by
  rw [Real.tanh_eq_sinh_div_cosh, abs_div, abs_of_pos (Real.cosh_pos x),
    div_le_one (Real.cosh_pos x), abs_le]
  constructor
  · have h := Real.sinh_lt_cosh (-x)
    rw [Real.sinh_neg, Real.cosh_neg] at h
    linarith
  · exact (Real.sinh_lt_cosh x).le

theorem sigmoid_nonneg (x : ℝ) : 0 ≤ sigmoid x := by
  unfold sigmoid
  positivity

theorem sigmoid_le_one (x : ℝ) : sigmoid x ≤ 1 := by
  unfold sigmoid
  rw [div_le_one (by positivity)]
  linarith [Real.exp_pos (-x)]

/-- C8: on `[B, 2C, T]` inputs, `fused_add_tanh_sigmoid_multiply` produces the
`[B, C, T]` tensor `tanh((a+b)[:, :C]) * sigmoid((a+b)[:, C:])`, and every
element has magnitude at most 1. -/
theorem fused_add_tanh_sigmoid_multiply_spec (B C T : ℕ) (a b : Ten3 ℝ)
    (haB : a.B = B) (haC : a.C = 2 * C) (haT : a.T = T)
    (hbB : b.B = B) (hbC : b.C = 2 * C) (hbT : b.T = T) :
    ((fused_add_tanh_sigmoid_multiply Real.tanh sigmoid a b C).B = B ∧
     (fused_add_tanh_sigmoid_multiply Real.tanh sigmoid a b C).C = C ∧
     (fused_add_tanh_sigmoid_multiply Real.tanh sigmoid a b C).T = T) ∧
    (∀ i c t, (fused_add_tanh_sigmoid_multiply Real.tanh sigmoid a b C).data i c t
        = Real.tanh (a.data i c t + b.data i c t)
          * sigmoid (a.data i (c + C) t + b.data i (c + C) t)) ∧
    (∀ i c t, |(fused_add_tanh_sigmoid_multiply Real.tanh sigmoid a b C).data i c t| ≤ 1) := by
  refine ⟨⟨haB, rfl, haT⟩, fun i c t => rfl, fun i c t => ?_⟩
  have h1 := abs_tanh_le_one (a.data i c t + b.data i c t)
  have h2 : |sigmoid (a.data i (c + C) t + b.data i (c + C) t)| ≤ 1 := by
    rw [abs_of_nonneg (sigmoid_nonneg _)]
    exact sigmoid_le_one _
  calc |(fused_add_tanh_sigmoid_multiply Real.tanh sigmoid a b C).data i c t|
      = |Real.tanh (a.data i c t + b.data i c t)|
        * |sigmoid (a.data i (c + C) t + b.data i (c + C) t)| := abs_mul _ _
    _ ≤ 1 * 1 := mul_le_mul h1 h2 (abs_nonneg _) zero_le_one
    _ = 1 := one_mul 1

/-- Witness for C8 at a concrete pair of `[1, 2, 1]` tensors with `C = 1`. -/
theorem fused_add_tanh_sigmoid_multiply_spec_witness :
    ((⟨1, 2, 1, fun _ _ _ => 0⟩ : Ten3 ℝ).B = 1 ∧
     (⟨1, 2, 1, fun _ _ _ => 0⟩ : Ten3 ℝ).C = 2 * 1 ∧
     (⟨1, 2, 1, fun _ _ _ => 0⟩ : Ten3 ℝ).T = 1) ∧
    (∀ i c t, |(fused_add_tanh_sigmoid_multiply Real.tanh sigmoid
      (⟨1, 2, 1, fun _ _ _ => 0⟩ : Ten3 ℝ)
      (⟨1, 2, 1, fun _ _ _ => 0⟩ : Ten3 ℝ) 1).data i c t| ≤ 1) :=
  ⟨⟨rfl, rfl, rfl⟩,
    (fused_add_tanh_sigmoid_multiply_spec 1 1 1 _ _ rfl rfl rfl rfl rfl rfl).2.2⟩

/-! ### Theorems: `WN` (C5, C7) -/

/-- C5: a freshly constructed `WN` instance has an all-zero `end` convolution,
and consequently `WN.forward` returns a pair of all-zero tensors for every
input audio and conditioning: the coupling transform starts as the identity. -/
theorem WN.fresh_forward_returns_zeros (cfg : WNCfg α) (th sg : α → α)
    (interp : (ℕ → ℕ → ℕ → α) → ℕ → ℕ → ℕ → ℕ → ℕ → α)
    (audio spect : Ten3 α) (sid : Option (ℕ → ℕ)) (hL : 1 ≤ cfg.n_layers) :
    (WN.mkFresh cfg).endW = (fun _ _ => (0 : α)) ∧
    (WN.mkFresh cfg).endB = (fun _ => (0 : α)) ∧
    ((WN.forward (WN.mkFresh cfg) th sg interp audio spect sid).1.data
      = fun _ _ _ => (0 : α)) ∧
    ((WN.forward (WN.mkFresh cfg) th sg interp audio spect sid).2.data
      = fun _ _ _ => (0 : α)) := by
  refine ⟨rfl, rfl, ?_, ?_⟩ <;>
    · funext b c t
      simp [WN.forward, Ten3.chunk2, conv1d, WN.mkFresh]

/-- Witness for C5 at a concrete configuration over ℚ. -/
theorem WN.fresh_forward_returns_zeros_witness :
    1 ≤ sampleWNCfg.n_layers ∧
    ((WN.forward (WN.mkFresh sampleWNCfg) qid qid qinterp
      ⟨1, 1, 1, fun _ _ _ => 1⟩ ⟨1, 1, 1, fun _ _ _ => 1⟩ none).1.data
      = fun _ _ _ => (0 : ℚ)) :=
  ⟨by decide,
    (WN.fresh_forward_returns_zeros sampleWNCfg qid qid qinterp
      ⟨1, 1, 1, fun _ _ _ => 1⟩ ⟨1, 1, 1, fun _ _ _ => 1⟩ none (by decide)).2.2.1⟩

theorem odd_pad_preserves (T k d : ℕ) (hk : k % 2 = 1) :
    T + 2 * ((k * d - d) / 2) - d * (k - 1) = T := by
  obtain ⟨m, hm⟩ : ∃ m, k = 2 * m + 1 := ⟨k / 2, by omega⟩
  subst hm
  have e1 : (2 * m + 1) * d - d = 2 * (m * d) := by
    have h : (2 * m + 1) * d = 2 * (m * d) + d := by ring
    omega
  have e2 : d * ((2 * m + 1) - 1) = 2 * (m * d) := by
    have h : (2 * m + 1) - 1 = 2 * m := by omega
    rw [h]
    ring
  rw [e1, e2]
  omega

theorem WN.inLayerApply_B (cfg : WNCfg α) (i : ℕ) (x : Ten3 α) :
    (WN.inLayerApply cfg i x).B = x.B := by
  unfold WN.inLayerApply
  split <;> rfl

theorem WN.inLayerApply_T (cfg : WNCfg α) (i : ℕ) (x : Ten3 α)
    (hk : cfg.kernel_size % 2 = 1) :
    (WN.inLayerApply cfg i x).T = x.T := by
  unfold WN.inLayerApply
  split
  · exact odd_pad_preserves x.T cfg.kernel_size (cfg.dilations i) hk
  · show x.T + 2 * ((cfg.kernel_size * cfg.dilations i - cfg.dilations i) / 2)
      - cfg.dilations i * (cfg.kernel_size - 1) + 2 * 0 - cfg.dilations i * (1 - 1) = x.T
    simp [odd_pad_preserves x.T cfg.kernel_size (cfg.dilations i) hk]

@[simp] theorem conv1d_B (Cin Cout k dil pad : ℕ) (repl : Bool)
    (w : ℕ → ℕ → ℕ → α) (bias : ℕ → α) (x : Ten3 α) :
    (conv1d Cin Cout k dil pad repl w bias x).B = x.B := rfl

@[simp] theorem conv1d_C (Cin Cout k dil pad : ℕ) (repl : Bool)
    (w : ℕ → ℕ → ℕ → α) (bias : ℕ → α) (x : Ten3 α) :
    (conv1d Cin Cout k dil pad repl w bias x).C = Cout := rfl

@[simp] theorem conv1d_T (Cin Cout k dil pad : ℕ) (repl : Bool)
    (w : ℕ → ℕ → ℕ → α) (bias : ℕ → α) (x : Ten3 α) :
    (conv1d Cin Cout k dil pad repl w bias x).T = x.T + 2 * pad - dil * (k - 1) := rfl

@[simp] theorem Ten3.add_B (x y : Ten3 α) : (x.add y).B = x.B := rfl

@[simp] theorem Ten3.add_C (x y : Ten3 α) : (x.add y).C = x.C := rfl

@[simp] theorem Ten3.add_T (x y : Ten3 α) : (x.add y).T = x.T := rfl

@[simp] theorem Ten3.sliceC_B (x : Ten3 α) (lo len : ℕ) : (x.sliceC lo len).B = x.B := rfl

@[simp] theorem Ten3.sliceC_C (x : Ten3 α) (lo len : ℕ) : (x.sliceC lo len).C = len := rfl

@[simp] theorem Ten3.sliceC_T (x : Ten3 α) (lo len : ℕ) : (x.sliceC lo len).T = x.T := rfl

@[simp] theorem fused_B (th sg : α → α) (a b : Ten3 α) (n : ℕ) :
    (fused_add_tanh_sigmoid_multiply th sg a b n).B = a.B := rfl

@[simp] theorem fused_C (th sg : α → α) (a b : Ten3 α) (n : ℕ) :
    (fused_add_tanh_sigmoid_multiply th sg a b n).C = n := rfl

@[simp] theorem fused_T (th sg : α → α) (a b : Ten3 α) (n : ℕ) :
    (fused_add_tanh_sigmoid_multiply th sg a b n).T = a.T := rfl

/-- Shape invariant carried through the layer loop of `WN.forward`. -/
def WN.ShapeInv (B0 T0 : ℕ) (s : Ten3 α × Option (Ten3 α)) : Prop :=
  s.1.B = B0 ∧ s.1.T = T0 ∧ ∀ o, s.2 = some o → o.B = B0 ∧ o.T = T0

theorem WN.layerStep_shape (cfg : WNCfg α) (th sg : α → α) (spect : Ten3 α)
    (i : ℕ) (s : Ten3 α × Option (Ten3 α)) (B0 T0 : ℕ)
    (hk : cfg.kernel_size % 2 = 1) (hs : WN.ShapeInv B0 T0 s) :
    WN.ShapeInv B0 T0 (WN.layerStep cfg th sg spect i s) ∧
    (WN.layerStep cfg th sg spect i s).2.isSome := by
  obtain ⟨h1, h2, h3⟩ := hs
  have hA : (WN.inLayerApply cfg i s.1).B = B0 := by rw [WN.inLayerApply_B, h1]
  have hA2 : (WN.inLayerApply cfg i s.1).T = T0 := by
    rw [WN.inLayerApply_T _ _ _ hk, h2]
  refine ⟨⟨?_, ?_, ?_⟩, ?_⟩
  · simp only [WN.layerStep]
    split <;> simp [h1]
  · simp only [WN.layerStep]
    split <;> simp [h2]
  · intro o ho
    rcases hso : s.2 with _ | o2
    · simp only [WN.layerStep, hso] at ho
      split at ho <;>
        simp only [Option.some.injEq] at ho <;>
        subst ho <;>
        constructor <;> (try split) <;> simp [hA, hA2]
    · simp only [WN.layerStep, hso] at ho
      split at ho <;>
        simp only [Option.some.injEq] at ho <;>
        subst ho <;>
        constructor <;> simp [hA, hA2, (h3 o2 hso).1, (h3 o2 hso).2]
  · simp only [WN.layerStep]
    split <;> (rcases hso : s.2 with _ | o2 <;> simp [hso])

theorem WN.runLayers_shape (cfg : WNCfg α) (th sg : α → α) (spect : Ten3 α)
    (B0 T0 : ℕ) (hk : cfg.kernel_size % 2 = 1) :
    ∀ k (s : Ten3 α × Option (Ten3 α)), WN.ShapeInv B0 T0 s →
      WN.ShapeInv B0 T0 (WN.runLayers cfg th sg spect k s) := by
  intro k
  induction k with
  | zero => intro s hs; exact hs
  | succ n ih =>
    intro s hs
    exact (WN.layerStep_shape cfg th sg spect n _ B0 T0 hk (ih s hs)).1

theorem WN.runLayers_accum_shape (cfg : WNCfg α) (th sg : α → α) (sp : Ten3 α)
    (audio : Ten3 α) (hk : cfg.kernel_size % 2 = 1) (hL : 1 ≤ cfg.n_layers) :
    ((WN.runLayers cfg th sg sp cfg.n_layers
      (conv1d cfg.n_in_channels cfg.n_channels 1 1 0 false
        (fun c ci _ => cfg.startW c ci) cfg.startB audio, none)).2.getD Ten3.zero).B
      = audio.B ∧
    ((WN.runLayers cfg th sg sp cfg.n_layers
      (conv1d cfg.n_in_channels cfg.n_channels 1 1 0 false
        (fun c ci _ => cfg.startW c ci) cfg.startB audio, none)).2.getD Ten3.zero).T
      = audio.T := by
  obtain ⟨k, hkk⟩ : ∃ k, cfg.n_layers = k + 1 := ⟨cfg.n_layers - 1, by omega⟩
  have h0 : WN.ShapeInv audio.B audio.T
      (conv1d cfg.n_in_channels cfg.n_channels 1 1 0 false
        (fun c ci _ => cfg.startW c ci) cfg.startB audio, (none : Option (Ten3 α))) := by
    refine ⟨rfl, by simp, fun o ho => by cases ho⟩
  have hmid := WN.runLayers_shape cfg th sg sp audio.B audio.T hk k _ h0
  have hstep := WN.layerStep_shape cfg th sg sp k _ audio.B audio.T hk hmid
  obtain ⟨inv, hsome⟩ := hstep
  rw [hkk]
  rcases hq : (WN.layerStep cfg th sg sp k (WN.runLayers cfg th sg sp k
      (conv1d cfg.n_in_channels cfg.n_channels 1 1 0 false
        (fun c ci _ => cfg.startW c ci) cfg.startB audio, none))).2 with _ | o
  · rw [hq] at hsome
    cases hsome
  · have ho := inv.2.2 o hq
    constructor <;> simp [WN.runLayers, hq, ho.1, ho.2]

/-- C7: for every valid `WN` configuration (odd kernel size, even channel
count, any per-layer dilations) `WN.forward` returns two tensors of the same
shape `[B, n_in_channels, T]` as the input audio: the in-layer padding
`(kernel_size*dilation - dilation)/2` preserves the time length at every
layer. -/
theorem WN.forward_preserves_shape (cfg : WNCfg α) (th sg : α → α)
    (interp : (ℕ → ℕ → ℕ → α) → ℕ → ℕ → ℕ → ℕ → ℕ → α)
    (audio spect : Ten3 α) (sid : Option (ℕ → ℕ))
    (hk : cfg.kernel_size % 2 = 1) (hc : cfg.n_channels % 2 = 0)
    (hL : 1 ≤ cfg.n_layers) :
    ((WN.forward cfg th sg interp audio spect sid).1.B = audio.B ∧
     (WN.forward cfg th sg interp audio spect sid).1.C = cfg.n_in_channels ∧
     (WN.forward cfg th sg interp audio spect sid).1.T = audio.T) ∧
    ((WN.forward cfg th sg interp audio spect sid).2.B = audio.B ∧
     (WN.forward cfg th sg interp audio spect sid).2.C = cfg.n_in_channels ∧
     (WN.forward cfg th sg interp audio spect sid).2.T = audio.T) := by
  refine ⟨⟨?_, ?_, ?_⟩, ⟨?_, ?_, ?_⟩⟩ <;>
    simp only [WN.forward, Ten3.chunk2] <;>
    simp [(WN.runLayers_accum_shape cfg th sg _ audio hk hL).1,
      (WN.runLayers_accum_shape cfg th sg _ audio hk hL).2] <;>
    omega

/-- Witness for C7 at a concrete configuration and `[2, 1, 5]` input. -/
theorem WN.forward_preserves_shape_witness :
    (sampleWNCfg.kernel_size % 2 = 1 ∧ sampleWNCfg.n_channels % 2 = 0 ∧
      1 ≤ sampleWNCfg.n_layers) ∧
    ((WN.forward sampleWNCfg qid qid qinterp ⟨2, 1, 5, fun _ _ _ => 1⟩
        ⟨2, 1, 3, fun _ _ _ => 1⟩ none).1.B = 2 ∧
     (WN.forward sampleWNCfg qid qid qinterp ⟨2, 1, 5, fun _ _ _ => 1⟩
        ⟨2, 1, 3, fun _ _ _ => 1⟩ none).1.C = 1 ∧
     (WN.forward sampleWNCfg qid qid qinterp ⟨2, 1, 5, fun _ _ _ => 1⟩
        ⟨2, 1, 3, fun _ _ _ => 1⟩ none).1.T = 5) :=
  ⟨⟨by decide, by decide, by decide⟩,
    (WN.forward_preserves_shape sampleWNCfg qid qid qinterp
      ⟨2, 1, 5, fun _ _ _ => 1⟩ ⟨2, 1, 3, fun _ _ _ => 1⟩ none
      (by decide) (by decide) (by decide)).1⟩

/-! ### Theorems: `WN_2d` streaming state handling (C3, C4) -/

/-- C3 (bug exhibit): on the first streaming call with `spect_queues` supplied
as all-`None`, the guard `(spect_queues is None) or any(x is None ...)` routes
every layer to the recompute branch, which never writes `spect_queues[i]`; the
call returns the spect queue collection unchanged — still all `None` — so the
conditioning is never cached and later calls recompute it. -/
theorem WN_2d.spect_queues_never_cached :
    ∃ out aq, WN_2d.forward sample2dCfg qid qid qinterp [qslice] qspect 2 1 none
      (some (List.replicate sample2dCfg.n_layers none))
      (some (List.replicate sample2dCfg.n_layers none))
      = .ok (.withState out aq (some (List.replicate sample2dCfg.n_layers none))) :=
  ⟨_, _, rfl⟩

/-- C4 (bug exhibit): when only `spect_queues` is supplied (with
`audio_queues = None`), `func_out` is still a bare tensor when the code calls
`func_out.append(spect_queues)`, which raises `AttributeError` instead of
returning the output with the updated state. -/
theorem WN_2d.spect_only_append_crashes :
    WN_2d.forward sample2dCfg qid qid qinterp [qslice] qspect 2 1 none none
      (some (List.replicate sample2dCfg.n_layers none))
      = .error (.attributeError "Tensor object has no attribute append") := rfl

/-! ### Causal-axis indexing lemmas -/

theorem lastN_length (k : ℕ) (xs : List (Frame α)) :
    (lastN k xs).length = min k xs.length := by
  simp [lastN]
  omega

theorem queueStep_length (pad : ℕ) (qe : Option (List (Frame α)))
    (au : List (Frame α)) :
    (WN_2d.queueStep pad qe au).length
      = min (pad + 1)
        ((match qe with | none => pad | some q => q.length) + au.length) := by
  rcases qe with _ | q <;> simp [WN_2d.queueStep, lastN_length]

theorem hConv_length (kh dh : ℕ) (F : (ℕ → Frame α) → Frame α)
    (xs : List (Frame α)) :
    (hConv kh dh F xs).length = xs.length - dh * (kh - 1) := by
  simp [hConv]

theorem inLayerApply_length (cfg : WN2dCfg α) (T i : ℕ) (xs : List (Frame α)) :
    (WN_2d.inLayerApply cfg T i xs).length
      = xs.length - cfg.dil_h i * (cfg.kernel_size_h - 1) := by
  unfold WN_2d.inLayerApply
  split <;> simp [hConv_length]

theorem addFrames_length (xs ys : List (Frame α)) :
    (addFrames xs ys).length = min xs.length ys.length := by
  simp [addFrames]

theorem frameGet_map (g : Frame α → Frame α) (xs : List (Frame α)) (h : ℕ)
    (hh : h < xs.length) :
    frameGet (xs.map g) h = g (frameGet xs h) := by
  have he : xs[h]? = some xs[h] := List.getElem?_eq_getElem hh
  simp [frameGet, List.getD_eq_getElem?_getD, he]

theorem frameGet_addFrames (xs ys : List (Frame α)) (h : ℕ)
    (h1 : h < xs.length) (h2 : h < ys.length) :
    frameGet (addFrames xs ys) h = frameAdd (frameGet xs h) (frameGet ys h) := by
  have he1 : xs[h]? = some xs[h] := List.getElem?_eq_getElem h1
  have he2 : ys[h]? = some ys[h] := List.getElem?_eq_getElem h2
  simp [addFrames, frameGet, List.getD_eq_getElem?_getD, List.getElem?_zipWith,
    he1, he2]

theorem addFrames_singleton (x y : Frame α) :
    addFrames [x] [y] = [frameAdd x y] := rfl

/-- Padding arithmetic of the causal axis: the height produced by layer `i`'s
convolution on the zero-padded batch input equals the unpadded input height. -/
theorem padding_h_cancel (cfg : WN2dCfg α) (i n : ℕ) :
    WN_2d.padding_h cfg i + n - cfg.dil_h i * (cfg.kernel_size_h - 1) = n := by
  unfold WN_2d.padding_h
  rw [Nat.mul_comm]
  omega

/-! ### Window lemmas: the streaming queue is a sliding causal window -/

theorem WN_2d.window_eq_drop (cfg : WN2dCfg α) (A : List (Frame α)) (i h : ℕ)
    (hh : h < A.length) :
    WN_2d.window cfg A i h
      = ((List.replicate (WN_2d.padding_h cfg i) zeroFrame ++ A).take
          (WN_2d.padding_h cfg i + h + 1)).drop h := by
  unfold WN_2d.window lastN
  congr 1
  simp only [List.length_take, List.length_append, List.length_replicate]
  omega

theorem WN_2d.window_length (cfg : WN2dCfg α) (A : List (Frame α)) (i h : ℕ)
    (hh : h < A.length) :
    (WN_2d.window cfg A i h).length = WN_2d.padding_h cfg i + 1 := by
  unfold WN_2d.window
  rw [lastN_length]
  simp only [List.length_take, List.length_append, List.length_replicate]
  omega

theorem WN_2d.window_get (cfg : WN2dCfg α) (A : List (Frame α)) (i h k : ℕ)
    (hk : k ≤ WN_2d.padding_h cfg i) (hh : h < A.length) :
    frameGet (WN_2d.window cfg A i h) k
      = frameGet (List.replicate (WN_2d.padding_h cfg i) zeroFrame ++ A)
          (h + k) := by
  rw [WN_2d.window_eq_drop cfg A i h hh]
  unfold frameGet
  rw [List.getD_eq_getElem?_getD, List.getD_eq_getElem?_getD,
    List.getElem?_drop, List.getElem?_take]
  rw [if_pos (by omega)]

theorem WN_2d.queueStep_zero (cfg : WN2dCfg α) (A : List (Frame α)) (i : ℕ)
    (h0 : 0 < A.length) :
    WN_2d.queueStep (WN_2d.padding_h cfg i) none [frameGet A 0]
      = WN_2d.window cfg A i 0 := by
  rcases A with _ | ⟨a, A2⟩
  · simp at h0
  · unfold WN_2d.queueStep WN_2d.window
    congr 1
    rw [List.take_append_eq_append_take]
    have h1 : (List.replicate (WN_2d.padding_h cfg i) (zeroFrame : Frame α)).take
        (WN_2d.padding_h cfg i + 0 + 1)
        = List.replicate (WN_2d.padding_h cfg i) zeroFrame :=
      List.take_all_of_le (by simp)
    have h2 : WN_2d.padding_h cfg i + 0 + 1
        - (List.replicate (WN_2d.padding_h cfg i) (zeroFrame : Frame α)).length
        = 1 := by simp
    rw [h1, h2]
    rfl

theorem WN_2d.queueStep_succ (cfg : WN2dCfg α) (A : List (Frame α)) (i h : ℕ)
    (hh : h + 1 < A.length) :
    WN_2d.queueStep (WN_2d.padding_h cfg i) (some (WN_2d.window cfg A i h))
      [frameGet A (h + 1)]
      = WN_2d.window cfg A i (h + 1) := by
  have hh0 : h < A.length := by omega
  have hsome : (List.replicate (WN_2d.padding_h cfg i) (zeroFrame : Frame α)
      ++ A)[WN_2d.padding_h cfg i + h + 1]? = some (frameGet A (h + 1)) := by
    rw [List.getElem?_append]
    rw [if_neg (by simp; omega)]
    have he : A[h + 1]? = some A[h + 1] := List.getElem?_eq_getElem hh
    simp only [List.length_replicate]
    rw [show WN_2d.padding_h cfg i + h + 1 - WN_2d.padding_h cfg i = h + 1 by omega, he]
    unfold frameGet
    rw [List.getD_eq_getElem?_getD, he]
    rfl
  unfold WN_2d.queueStep
  rw [WN_2d.window_eq_drop cfg A i h hh0]
  have hcat : ((List.replicate (WN_2d.padding_h cfg i) zeroFrame ++ A).take
        (WN_2d.padding_h cfg i + h + 1)).drop h ++ [frameGet A (h + 1)]
      = ((List.replicate (WN_2d.padding_h cfg i) zeroFrame ++ A).take
        (WN_2d.padding_h cfg i + h + 1 + 1)).drop h := by
    conv_rhs => rw [List.take_succ]
    rw [hsome]
    simp only [Option.toList_some]
    rw [List.drop_append_eq_append_drop]
    have hl : ((List.replicate (WN_2d.padding_h cfg i) (zeroFrame : Frame α)
        ++ A).take (WN_2d.padding_h cfg i + h + 1)).length
        = WN_2d.padding_h cfg i + h + 1 := by
      simp only [List.length_take, List.length_append, List.length_replicate]
      omega
    rw [show h - ((List.replicate (WN_2d.padding_h cfg i) (zeroFrame : Frame α)
        ++ A).take (WN_2d.padding_h cfg i + h + 1)).length = 0 by rw [hl]; omega]
    rfl
  rw [hcat]
  rw [WN_2d.window_eq_drop cfg A i (h + 1) hh]
  unfold lastN
  rw [List.drop_drop]
  congr 1 <;>
    first
    | (simp only [List.length_drop, List.length_take, List.length_append,
        List.length_replicate]
       omega)
    | (congr 1
       omega)

/-! ### Streaming layer-loop lemmas (C2) -/

theorem getD_set_self {β : Type} (l : List (Option β)) (i : ℕ) (v : Option β)
    (h : i < l.length) : (l.set i v).getD i none = v := by
  rw [List.getD_eq_getElem?_getD, List.getElem?_set]
  simp [h]

theorem getD_set_ne {β : Type} (l : List (Option β)) (i j : ℕ) (v : Option β)
    (h : i ≠ j) : (l.set i v).getD j none = l.getD j none := by
  rw [List.getD_eq_getElem?_getD, List.getElem?_set, if_neg h,
    ← List.getD_eq_getElem?_getD]

theorem WN_2d.layerBody_stream_eq (cfg : WN2dCfg α) (th sg : α → α)
    (pspect : Frame α) (T i : ℕ) (s : LState α)
    (ql : List (Option (List (Frame α)))) (haq : s.aq = some ql)
    (hq1 : (WN_2d.queueStep (WN_2d.padding_h cfg i) (ql.getD i none)
      s.audio).length = WN_2d.padding_h cfg i + 1) :
    WN_2d.layerBody cfg th sg pspect true T i s = .ok
      { audio := (WN_2d.streamBody cfg th sg pspect T i s.audio s.output
          (ql.getD i none)).1.1,
        output := (WN_2d.streamBody cfg th sg pspect T i s.audio s.output
          (ql.getD i none)).1.2,
        aq := some (ql.set i (some (WN_2d.streamBody cfg th sg pspect T i
          s.audio s.output (ql.getD i none)).2)),
        sq := s.sq,
        spec := WN_2d.condSlice cfg pspect i } := by
  simp only [List.getD_eq_getElem?_getD] at hq1
  by_cases hm : cfg.merge_res_skip = false ∧ i < cfg.n_layers - 1 <;>
    simp [WN_2d.layerBody, WN_2d.streamBody, haq, hq1, hm]

theorem WN_2d.layerBody_batch_eq (cfg : WN2dCfg α) (th sg : α → α)
    (pspect : Frame α) (T i : ℕ) (s : LState α) (haq : s.aq = none) :
    WN_2d.layerBody cfg th sg pspect true T i s = .ok
      { audio := (WN_2d.batchBody cfg th sg pspect T i s.audio s.output).1,
        output := (WN_2d.batchBody cfg th sg pspect T i s.audio s.output).2,
        aq := none, sq := s.sq,
        spec := WN_2d.condSlice cfg pspect i } := by
  by_cases hm : cfg.merge_res_skip = false ∧ i < cfg.n_layers - 1 <;>
    simp [WN_2d.layerBody, WN_2d.batchBody, haq, hm]

theorem WN_2d.streamBody_window_length (cfg : WN2dCfg α) (th sg : α → α)
    (pspect : Frame α) (T i : ℕ) (audio output : List (Frame α))
    (qe : Option (List (Frame α))) (ha1 : audio.length = 1)
    (hqe : ∀ q, qe = some q → WN_2d.padding_h cfg i ≤ q.length) :
    (WN_2d.streamBody cfg th sg pspect T i audio output qe).2.length
      = WN_2d.padding_h cfg i + 1 := by
  have : (WN_2d.streamBody cfg th sg pspect T i audio output qe).2
      = WN_2d.queueStep (WN_2d.padding_h cfg i) qe audio := rfl
  rw [this, queueStep_length]
  rcases hq : qe with _ | q
  · simp [ha1]
  · have := hqe q hq
    simp only [ha1]
    omega

theorem WN_2d.streamBody_audio_length (cfg : WN2dCfg α) (th sg : α → α)
    (pspect : Frame α) (T i : ℕ) (audio output : List (Frame α))
    (qe : Option (List (Frame α))) (ha1 : audio.length = 1)
    (hqe : ∀ q, qe = some q → WN_2d.padding_h cfg i ≤ q.length) :
    (WN_2d.streamBody cfg th sg pspect T i audio output qe).1.1.length = 1 := by
  have hwl : (WN_2d.queueStep (WN_2d.padding_h cfg i) qe audio).length
      = WN_2d.padding_h cfg i + 1 := by
    rw [queueStep_length]
    rcases hq : qe with _ | q
    · simp [ha1]
    · have := hqe q hq
      simp only [ha1]
      omega
  have hin : (WN_2d.inLayerApply cfg T i (WN_2d.queueStep
      (WN_2d.padding_h cfg i) qe audio)).length = 1 := by
    rw [inLayerApply_length, hwl, padding_h_cancel]
  by_cases hm : cfg.merge_res_skip = false ∧ i < cfg.n_layers - 1 <;>
    simp [WN_2d.streamBody, hm, addFrames_length, ha1] <;>
    split <;>
    simp [hin]

theorem WN_2d.layerBody_stream_ok (cfg : WN2dCfg α) (th sg : α → α)
    (pspect : Frame α) (T i : ℕ) (s : LState α)
    (ql : List (Option (List (Frame α)))) (haq : s.aq = some ql)
    (ha1 : s.audio.length = 1)
    (hqi : ∀ q, ql.getD i none = some q → WN_2d.padding_h cfg i ≤ q.length) :
    ∃ s2, WN_2d.layerBody cfg th sg pspect true T i s = .ok s2 ∧
      s2.aq = some (ql.set i (some (WN_2d.queueStep (WN_2d.padding_h cfg i)
        (ql.getD i none) s.audio))) ∧
      (WN_2d.queueStep (WN_2d.padding_h cfg i) (ql.getD i none) s.audio).length
        = WN_2d.padding_h cfg i + 1 ∧
      s2.audio.length = 1 ∧ s2.sq = s.sq := by
  have hq1 : (WN_2d.queueStep (WN_2d.padding_h cfg i) (ql.getD i none)
      s.audio).length = WN_2d.padding_h cfg i + 1 := by
    rw [queueStep_length]
    rcases hqe : ql.getD i none with _ | q
    · simp [ha1]
    · have := hqi q hqe
      simp only [ha1]
      omega
  refine ⟨_, WN_2d.layerBody_stream_eq cfg th sg pspect T i s ql haq hq1,
    rfl, hq1, ?_, rfl⟩
  exact WN_2d.streamBody_audio_length cfg th sg pspect T i s.audio s.output
    (ql.getD i none) ha1 hqi

theorem WN_2d.layerBody_stream_fail (cfg : WN2dCfg α) (th sg : α → α)
    (pspect : Frame α) (T : ℕ) (s : LState α)
    (ql : List (Option (List (Frame α)))) (haq : s.aq = some ql)
    (ha1 : s.audio.length = 1) (q0 : List (Frame α))
    (hq0 : ql.getD 0 none = some q0)
    (hshort : q0.length < WN_2d.padding_h cfg 0) :
    WN_2d.layerBody cfg th sg pspect true T 0 s
      = .error (.assertError "conv queue is wrong length") := by
  have hq1 : (WN_2d.queueStep (WN_2d.padding_h cfg 0) (ql.getD 0 none)
      s.audio).length ≠ WN_2d.padding_h cfg 0 + 1 := by
    rw [queueStep_length, hq0]
    simp only [ha1]
    omega
  simp only [WN_2d.layerBody, haq, hq1, if_false, reduceIte, if_neg hq1]

theorem WN_2d.runLayers_propagates_error (cfg : WN2dCfg α) (th sg : α → α)
    (pspect : Frame α) (T : ℕ) (s : LState α) (e : PyErr)
    (h0 : WN_2d.layerBody cfg th sg pspect true T 0 s = .error e) :
    ∀ k, 1 ≤ k → WN_2d.runLayers cfg th sg pspect true T k s = .error e := by
  intro k
  induction k with
  | zero => intro h; omega
  | succ m ih =>
    intro _
    rcases Nat.eq_zero_or_pos m with hm | hm
    · subst hm
      simp [WN_2d.runLayers, h0]
    · simp [WN_2d.runLayers, ih (by omega)]

theorem WN_2d.runLayers_stream_ok (cfg : WN2dCfg α) (th sg : α → α)
    (pspect : Frame α) (T : ℕ) (s0 : LState α)
    (ql0 : List (Option (List (Frame α)))) (haq : s0.aq = some ql0)
    (ha1 : s0.audio.length = 1) (hsq : s0.sq = none)
    (hlen : ql0.length = cfg.n_layers)
    (hwf : ∀ j, j < cfg.n_layers → ∀ q, ql0.getD j none = some q →
      WN_2d.padding_h cfg j ≤ q.length) :
    ∀ k, k ≤ cfg.n_layers →
      ∃ s2 ql2, WN_2d.runLayers cfg th sg pspect true T k s0 = .ok s2 ∧
        s2.aq = some ql2 ∧ ql2.length = cfg.n_layers ∧ s2.audio.length = 1 ∧
        s2.sq = none ∧
        (∀ j, j < cfg.n_layers →
          (j < k → ∃ q, ql2.getD j none = some q ∧
              q.length = WN_2d.padding_h cfg j + 1) ∧
          (k ≤ j → ql2.getD j none = ql0.getD j none)) := by
  intro k
  induction k with
  | zero =>
    intro _
    exact ⟨s0, ql0, rfl, haq, hlen, ha1, hsq,
      fun j hj => ⟨fun h0 => absurd h0 (by omega), fun _ => rfl⟩⟩
  | succ m ih =>
    intro hm1
    obtain ⟨s2, ql2, hrun, haq2, hlen2, ha12, hsq2, hent⟩ := ih (by omega)
    have hqm : ∀ q, ql2.getD m none = some q →
        WN_2d.padding_h cfg m ≤ q.length := by
      intro q hq
      rw [(hent m (by omega)).2 (le_refl m)] at hq
      exact hwf m (by omega) q hq
    obtain ⟨s3, hbody, haq3, hq1len, ha13, hsq3⟩ :=
      WN_2d.layerBody_stream_ok cfg th sg pspect T m s2 ql2 haq2 ha12 hqm
    refine ⟨s3, _, ?_, haq3, ?_, ha13, by rw [hsq3, hsq2], ?_⟩
    · simp [WN_2d.runLayers, hrun, hbody]
    · simp [List.length_set, hlen2]
    · intro j hj
      constructor
      · intro hjm
        by_cases hje : j = m
        · subst hje
          exact ⟨_, getD_set_self ql2 j _ (by omega), hq1len⟩
        · obtain ⟨q, hq, hqlen⟩ := (hent j hj).1 (by omega)
          exact ⟨q, by rw [getD_set_ne ql2 m j _ (by omega)]; exact hq, hqlen⟩
      · intro hjm
        rw [getD_set_ne ql2 m j _ (by omega)]
        exact (hent j hj).2 (by omega)

theorem WN_2d.paddingList_getD (cfg : WN2dCfg α) (i : ℕ)
    (hi : i < cfg.n_layers) :
    (WN_2d.paddingList cfg).getD i 0 = (cfg.kernel_size_h - 1) * cfg.dil_h i := by
  unfold WN_2d.paddingList
  rw [List.getD_eq_getElem?_getD, List.getElem?_map]
  rw [List.getElem?_range hi]
  rfl

/-- C2: the causal padding stored for layer `i` is
`(kernel_size_h - 1) * dilation_h[i]`; in streaming mode (one causal slice per
step) every call on a well-formed queue collection succeeds with every
layer's consumed-and-stored window holding exactly `padding_h[i] + 1` causal
steps, while a too-short queue entry is a fatal assertion failure. -/
theorem WN_2d.causal_queue_invariant (cfg : WN2dCfg α) (th sg : α → α)
    (interp : (ℕ → ℕ → ℕ → α) → ℕ → ℕ → ℕ → ℕ → ℕ → α)
    (sl : ℕ → ℕ → α) (spect : Frame α) (T_cond T : ℕ)
    (sid : Option (ℕ → ℕ)) (aq : List (Option (List (Frame α))))
    (hlen : aq.length = cfg.n_layers)
    (hwf : ∀ j, j < cfg.n_layers → ∀ q, aq.getD j none = some q →
      WN_2d.padding_h cfg j ≤ q.length) :
    (∀ i, i < cfg.n_layers → (WN_2d.paddingList cfg).getD i 0
        = (cfg.kernel_size_h - 1) * cfg.dil_h i) ∧
    (∃ out aq2 sq2, WN_2d.forward cfg th sg interp [sl] spect T_cond T sid
        (some aq) none = .ok (.withState out aq2 sq2) ∧
      aq2.length = cfg.n_layers ∧
      (∀ i, i < cfg.n_layers → ∃ q, aq2.getD i none = some q ∧
        q.length = WN_2d.padding_h cfg i + 1)) ∧
    (∀ aqB : List (Option (List (Frame α))), ∀ q0 : List (Frame α),
      0 < cfg.n_layers → aqB.getD 0 none = some q0 →
      q0.length < WN_2d.padding_h cfg 0 →
      WN_2d.forward cfg th sg interp [sl] spect T_cond T sid (some aqB) none
        = .error (.assertError "conv queue is wrong length")) := by
  have heq : ∀ aqx : List (Option (List (Frame α))),
      WN_2d.forward cfg th sg interp [sl] spect T_cond T sid (some aqx) none
      = (match WN_2d.runLayers cfg th sg
            (WN_2d.processSpect cfg interp spect T_cond T sid) true T
            cfg.n_layers
            { audio := List.map (fun f => conv1x1Frame 1 cfg.startW cfg.startB
                fun b _ t => f b t) [sl],
              output := if cfg.merge_res_skip then
                  List.map (fun f => conv1x1Frame 1 cfg.startW cfg.startB
                    fun b _ t => f b t) [sl]
                else List.map (fun _ => zeroFrame)
                  (List.map (fun f => conv1x1Frame 1 cfg.startW cfg.startB
                    fun b _ t => f b t) [sl]),
              aq := some aqx, sq := none, spec := zeroFrame } with
        | .error e => .error e
        | .ok sF =>
          match sF.aq, sF.sq with
          | some a, some s2x => .ok (.withState (sF.output.map fun f =>
              transpose10 (conv1x1Frame cfg.n_channels cfg.endW cfg.endB f))
              a (some s2x))
          | some a, none => .ok (.withState (sF.output.map fun f =>
              transpose10 (conv1x1Frame cfg.n_channels cfg.endW cfg.endB f))
              a none)
          | none, some _ =>
            .error (.attributeError "Tensor object has no attribute append")
          | none, none => .ok (.tensor (sF.output.map fun f =>
              transpose10 (conv1x1Frame cfg.n_channels cfg.endW cfg.endB f)))) :=
    fun aqx => rfl
  refine ⟨fun i hi => WN_2d.paddingList_getD cfg i hi, ?_, ?_⟩
  · obtain ⟨s2, ql2, hrun, haq2, hlen2, ha12, hsq2, hent⟩ :=
      WN_2d.runLayers_stream_ok cfg th sg
        (WN_2d.processSpect cfg interp spect T_cond T sid) T
        { audio := List.map (fun f => conv1x1Frame 1 cfg.startW cfg.startB
            fun b _ t => f b t) [sl],
          output := if cfg.merge_res_skip then
              List.map (fun f => conv1x1Frame 1 cfg.startW cfg.startB
                fun b _ t => f b t) [sl]
            else List.map (fun _ => zeroFrame)
              (List.map (fun f => conv1x1Frame 1 cfg.startW cfg.startB
                fun b _ t => f b t) [sl]),
          aq := some aq, sq := none, spec := zeroFrame }
        aq rfl (by simp) rfl hlen hwf cfg.n_layers (le_refl _)
    refine ⟨s2.output.map fun f =>
      transpose10 (conv1x1Frame cfg.n_channels cfg.endW cfg.endB f), ql2, none,
      ?_, hlen2, fun i hi => (hent i hi).1 hi⟩
    rw [heq aq, hrun]
    simp only [haq2, hsq2]
  · intro aqB q0 hL0 hq0 hshort
    have hfail := WN_2d.layerBody_stream_fail cfg th sg
      (WN_2d.processSpect cfg interp spect T_cond T sid) T
      { audio := List.map (fun f => conv1x1Frame 1 cfg.startW cfg.startB
          fun b _ t => f b t) [sl],
        output := if cfg.merge_res_skip then
            List.map (fun f => conv1x1Frame 1 cfg.startW cfg.startB
              fun b _ t => f b t) [sl]
          else List.map (fun _ => zeroFrame)
            (List.map (fun f => conv1x1Frame 1 cfg.startW cfg.startB
              fun b _ t => f b t) [sl]),
        aq := some aqB, sq := none, spec := zeroFrame }
      aqB rfl (by simp) q0 hq0 hshort
    have herr := WN_2d.runLayers_propagates_error cfg th sg
      (WN_2d.processSpect cfg interp spect T_cond T sid) T _ _ hfail
      cfg.n_layers hL0
    rw [heq aqB, herr]

/-- Witness for C2 at the concrete one-layer configuration (causal padding 1)
with a fresh all-`None` queue collection. -/
theorem WN_2d.causal_queue_invariant_witness :
    ((List.replicate sample2dCfg.n_layers (none : Option (List (Frame ℚ)))).length
      = sample2dCfg.n_layers) ∧
    (∃ out aq2 sq2, WN_2d.forward sample2dCfg qid qid qinterp [qslice] qspect
        2 1 none (some (List.replicate sample2dCfg.n_layers none)) none
        = .ok (.withState out aq2 sq2) ∧
      aq2.length = sample2dCfg.n_layers ∧
      (∀ i, i < sample2dCfg.n_layers → ∃ q, aq2.getD i none = some q ∧
        q.length = WN_2d.padding_h sample2dCfg i + 1)) := by
  refine ⟨by simp, ?_⟩
  refine (WN_2d.causal_queue_invariant sample2dCfg qid qid qinterp qslice
    qspect 2 1 none (List.replicate sample2dCfg.n_layers none) (by simp)
    ?_).2.1
  intro j hj q hq
  rcases j with _ | j <;> simp [List.getD] at hq

/-! ### Causality of the height convolution (core of C1) -/

theorem convComb_congr (Cin kh kw dw padW T : ℕ) (w : ℕ → ℕ → ℕ → ℕ → α)
    (bias : ℕ → α) (g g2 : ℕ → Frame α) (hg : ∀ j, j < kh → g j = g2 j) :
    convComb Cin kh kw dw padW T w bias g = convComb Cin kh kw dw padW T w bias g2 := by
  unfold convComb
  funext b c t
  congr 1
  apply Finset.sum_congr rfl
  intro ci _
  apply Finset.sum_congr rfl
  intro j hj
  apply Finset.sum_congr rfl
  intro k _
  rw [hg j (Finset.mem_range.1 hj)]

theorem dwComb_congr (kh kw dw padW T : ℕ) (w : ℕ → ℕ → ℕ → α)
    (bias : ℕ → α) (g g2 : ℕ → Frame α) (hg : ∀ j, j < kh → g j = g2 j) :
    dwComb kh kw dw padW T w bias g = dwComb kh kw dw padW T w bias g2 := by
  unfold dwComb
  funext b c t
  congr 1
  apply Finset.sum_congr rfl
  intro j hj
  apply Finset.sum_congr rfl
  intro k _
  rw [hg j (Finset.mem_range.1 hj)]

theorem hConv_window (cfg : WN2dCfg α) (i : ℕ) (F : (ℕ → Frame α) → Frame α)
    (hF : ∀ g g2 : ℕ → Frame α,
      (∀ j, j < cfg.kernel_size_h → g j = g2 j) → F g = F g2)
    (A : List (Frame α)) (h : ℕ) (hh : h < A.length) :
    hConv cfg.kernel_size_h (cfg.dil_h i) F (WN_2d.window cfg A i h)
      = [F fun j => frameGet (List.replicate (WN_2d.padding_h cfg i) zeroFrame
          ++ A) (h + j * cfg.dil_h i)] := by
  unfold hConv
  rw [WN_2d.window_length cfg A i h hh, padding_h_cancel]
  simp only [List.range_succ, List.range_zero, List.nil_append, List.map_cons,
    List.map_nil]
  congr 1
  apply hF
  intro j hj
  have hjp : j * cfg.dil_h i ≤ WN_2d.padding_h cfg i := by
    unfold WN_2d.padding_h
    exact Nat.mul_le_mul_right _ (by omega)
  rw [Nat.zero_add, WN_2d.window_get cfg A i h _ hjp hh]

theorem hConv_padded_get (cfg : WN2dCfg α) (i : ℕ)
    (F : (ℕ → Frame α) → Frame α) (A : List (Frame α)) (h : ℕ)
    (hh : h < A.length) :
    frameGet (hConv cfg.kernel_size_h (cfg.dil_h i) F
      (List.replicate (WN_2d.padding_h cfg i) zeroFrame ++ A)) h
      = F fun j => frameGet (List.replicate (WN_2d.padding_h cfg i) zeroFrame
          ++ A) (h + j * cfg.dil_h i) := by
  unfold hConv frameGet
  have harg : (List.replicate (WN_2d.padding_h cfg i) (zeroFrame : Frame α)
      ++ A).length - cfg.dil_h i * (cfg.kernel_size_h - 1) = A.length := by
    simp only [List.length_append, List.length_replicate]
    exact padding_h_cancel cfg i A.length
  rw [harg, List.getD_eq_getElem?_getD, List.getElem?_map,
    List.getElem?_range hh]
  rfl

theorem hConv_padded_length (cfg : WN2dCfg α) (i : ℕ)
    (F : (ℕ → Frame α) → Frame α) (A : List (Frame α)) :
    (hConv cfg.kernel_size_h (cfg.dil_h i) F
      (List.replicate (WN_2d.padding_h cfg i) zeroFrame ++ A)).length
      = A.length := by
  rw [hConv_length]
  simp only [List.length_append, List.length_replicate]
  exact padding_h_cancel cfg i A.length

theorem WN_2d.inLayerApply_padded_length (cfg : WN2dCfg α) (T i : ℕ)
    (A : List (Frame α)) :
    (WN_2d.inLayerApply cfg T i
      (List.replicate (WN_2d.padding_h cfg i) zeroFrame ++ A)).length
      = A.length := by
  rw [inLayerApply_length]
  simp only [List.length_append, List.length_replicate]
  exact padding_h_cancel cfg i A.length

theorem WN_2d.inLayerApply_window (cfg : WN2dCfg α) (T i : ℕ)
    (A : List (Frame α)) (h : ℕ) (hh : h < A.length) :
    WN_2d.inLayerApply cfg T i (WN_2d.window cfg A i h)
      = [frameGet (WN_2d.inLayerApply cfg T i
          (List.replicate (WN_2d.padding_h cfg i) zeroFrame ++ A)) h] := by
  unfold WN_2d.inLayerApply
  split <;> dsimp only
  · rw [hConv_window cfg i _ (convComb_congr cfg.n_channels cfg.kernel_size_h
      cfg.kernel_size_w (cfg.dil_w i) (((cfg.kernel_size_w - 1) * cfg.dil_w i) / 2)
      T (cfg.inW i) (cfg.inB i)) A h hh]
    rw [hConv_padded_get cfg i _ A h hh]
  · rw [hConv_window cfg i _ (dwComb_congr cfg.kernel_size_h cfg.kernel_size_w
      (cfg.dil_w i) (((cfg.kernel_size_w - 1) * cfg.dil_w i) / 2) T (cfg.dwW i)
      (cfg.dwB i)) A h hh]
    have hlen : h < (hConv cfg.kernel_size_h (cfg.dil_h i)
        (dwComb cfg.kernel_size_h cfg.kernel_size_w (cfg.dil_w i)
          (((cfg.kernel_size_w - 1) * cfg.dil_w i) / 2) T (cfg.dwW i) (cfg.dwB i))
        (List.replicate (WN_2d.padding_h cfg i) zeroFrame ++ A)).length := by
      rw [hConv_padded_length]
      exact hh
    rw [List.map_singleton, frameGet_map _ _ h hlen]
    rw [hConv_padded_get cfg i _ A h hh]

/-- Core correspondence of C1: a streaming layer step on the height-`h` slice,
with the queue holding the previous window, produces exactly the height-`h`
slice of the batch layer step, and stores the step-`h` window. -/
theorem WN_2d.streamBody_matches_batch (cfg : WN2dCfg α) (th sg : α → α)
    (pspect : Frame α) (T i : ℕ) (A O : List (Frame α)) (n h : ℕ)
    (hA : A.length = n) (hO : O.length = n) (hh : h < n)
    (qe : Option (List (Frame α)))
    (hqe : qe = if h = 0 then none else some (WN_2d.window cfg A i (h - 1))) :
    (WN_2d.streamBody cfg th sg pspect T i [frameGet A h] [frameGet O h] qe).2
      = WN_2d.window cfg A i h ∧
    (WN_2d.streamBody cfg th sg pspect T i [frameGet A h] [frameGet O h] qe).1.1
      = [frameGet (WN_2d.batchBody cfg th sg pspect T i A O).1 h] ∧
    (WN_2d.streamBody cfg th sg pspect T i [frameGet A h] [frameGet O h] qe).1.2
      = [frameGet (WN_2d.batchBody cfg th sg pspect T i A O).2 h] := by
  have hhA : h < A.length := by omega
  have hhO : h < O.length := by omega
  have hwin : WN_2d.queueStep (WN_2d.padding_h cfg i) qe [frameGet A h]
      = WN_2d.window cfg A i h := by
    rcases Nat.eq_zero_or_pos h with h0 | hpos
    · subst h0
      rw [hqe, if_pos rfl]
      exact WN_2d.queueStep_zero cfg A i hhA
    · rw [hqe, if_neg (by omega)]
      obtain ⟨h2, rfl⟩ : ∃ h2, h = h2 + 1 := ⟨h - 1, by omega⟩
      rw [show h2 + 1 - 1 = h2 from rfl]
      exact WN_2d.queueStep_succ cfg A i h2 (by omega)
  have hin := WN_2d.inLayerApply_window cfg T i A h hhA
  have hinlen : h < (WN_2d.inLayerApply cfg T i
      (List.replicate (WN_2d.padding_h cfg i) zeroFrame ++ A)).length := by
    rw [WN_2d.inLayerApply_padded_length]
    exact hhA
  simp only [WN_2d.streamBody, WN_2d.batchBody]
  rw [hwin, hin]
  by_cases hrs : cfg.res_skip = true <;>
    simp only [hrs, if_true, if_false, ite_true, ite_false, List.map_cons,
      List.map_nil] <;>
    refine ⟨trivial, ?_, ?_⟩ <;>
    split_ifs <;>
    simp [addFrames_singleton, frameGet_map _ _ h, frameGet_addFrames, hhA,
      hhO, hinlen, List.length_map, WN_2d.inLayerApply_padded_length, hA, hO,
      hh, addFrames_length]

/-! ### Batch-mode loop characterization -/

theorem WN_2d.batchBody_lengths (cfg : WN2dCfg α) (th sg : α → α)
    (pspect : Frame α) (T i : ℕ) (A O : List (Frame α)) (n : ℕ)
    (hA : A.length = n) (hO : O.length = n) :
    (WN_2d.batchBody cfg th sg pspect T i A O).1.length = n ∧
    (WN_2d.batchBody cfg th sg pspect T i A O).2.length = n := by
  have hacts : ((WN_2d.inLayerApply cfg T i
      (List.replicate (WN_2d.padding_h cfg i) zeroFrame ++ A)).map
      (fun f => fusedFrame th sg f (WN_2d.condSlice cfg pspect i)
        cfg.n_channels)).length = n := by
    rw [List.length_map, WN_2d.inLayerApply_padded_length, hA]
  simp only [WN_2d.batchBody]
  by_cases hrs : cfg.res_skip = true <;>
    simp only [hrs, if_true, if_false, ite_true, ite_false] <;>
    constructor <;>
    split_ifs <;>
    simp [addFrames_length, List.length_map, hacts, hA, hO,
      WN_2d.inLayerApply_padded_length]

theorem WN_2d.batchState_zero (cfg : WN2dCfg α) (th sg : α → α)
    (pspect : Frame α) (T : ℕ) (s0 : LState α) :
    WN_2d.batchState cfg th sg pspect T s0 0 = s0 := by
  simp [WN_2d.batchState, WN_2d.runLayers]

theorem WN_2d.batchState_of_run (cfg : WN2dCfg α) (th sg : α → α)
    (pspect : Frame α) (T : ℕ) (s0 : LState α) (k : ℕ) (s : LState α)
    (h : WN_2d.runLayers cfg th sg pspect true T k s0 = .ok s) :
    WN_2d.batchState cfg th sg pspect T s0 k = s := by
  unfold WN_2d.batchState
  rw [h]

theorem WN_2d.batch_runLayers_ok (cfg : WN2dCfg α) (th sg : α → α)
    (pspect : Frame α) (T : ℕ) (s0 : LState α) (haq : s0.aq = none) :
    ∀ k, WN_2d.runLayers cfg th sg pspect true T k s0
        = .ok (WN_2d.batchState cfg th sg pspect T s0 k)
      ∧ (WN_2d.batchState cfg th sg pspect T s0 k).aq = none
      ∧ (WN_2d.batchState cfg th sg pspect T s0 k).sq = s0.sq := by
  intro k
  induction k with
  | zero =>
    refine ⟨?_, ?_, ?_⟩ <;> simp [WN_2d.batchState, WN_2d.runLayers, haq]
  | succ m ih =>
    obtain ⟨hrun, haqm, hsqm⟩ := ih
    have hb := WN_2d.layerBody_batch_eq cfg th sg pspect T m _ haqm
    have hrun2 : WN_2d.runLayers cfg th sg pspect true T (m + 1) s0
        = WN_2d.layerBody cfg th sg pspect true T m
          (WN_2d.batchState cfg th sg pspect T s0 m) := by
      simp only [WN_2d.runLayers]
      rw [hrun]
    have hrun3 := hrun2.trans hb
    have hbs := WN_2d.batchState_of_run cfg th sg pspect T s0 (m + 1) _ hrun3
    refine ⟨?_, ?_, ?_⟩
    · rw [hbs]
      exact hrun3
    · rw [hbs]
    · rw [hbs]
      exact hsqm

theorem WN_2d.batchState_recurrence (cfg : WN2dCfg α) (th sg : α → α)
    (pspect : Frame α) (T : ℕ) (s0 : LState α) (haq : s0.aq = none) (k : ℕ) :
    (WN_2d.batchState cfg th sg pspect T s0 (k + 1)).audio
      = (WN_2d.batchBody cfg th sg pspect T k
          (WN_2d.batchState cfg th sg pspect T s0 k).audio
          (WN_2d.batchState cfg th sg pspect T s0 k).output).1 ∧
    (WN_2d.batchState cfg th sg pspect T s0 (k + 1)).output
      = (WN_2d.batchBody cfg th sg pspect T k
          (WN_2d.batchState cfg th sg pspect T s0 k).audio
          (WN_2d.batchState cfg th sg pspect T s0 k).output).2 := by
  obtain ⟨hrun, haqm, _⟩ := WN_2d.batch_runLayers_ok cfg th sg pspect T s0 haq k
  have hb := WN_2d.layerBody_batch_eq cfg th sg pspect T k _ haqm
  have hrun2 : WN_2d.runLayers cfg th sg pspect true T (k + 1) s0
      = WN_2d.layerBody cfg th sg pspect true T k
        (WN_2d.batchState cfg th sg pspect T s0 k) := by
    simp only [WN_2d.runLayers]
    rw [hrun]
  have hbs := WN_2d.batchState_of_run cfg th sg pspect T s0 (k + 1) _
    (hrun2.trans hb)
  constructor <;> rw [hbs]

theorem WN_2d.batchState_lengths (cfg : WN2dCfg α) (th sg : α → α)
    (pspect : Frame α) (T : ℕ) (s0 : LState α) (haq : s0.aq = none) (n : ℕ)
    (hA : s0.audio.length = n) (hO : s0.output.length = n) :
    ∀ k, (WN_2d.batchState cfg th sg pspect T s0 k).audio.length = n ∧
      (WN_2d.batchState cfg th sg pspect T s0 k).output.length = n := by
  intro k
  induction k with
  | zero => rw [WN_2d.batchState_zero]; exact ⟨hA, hO⟩
  | succ m ih =>
    obtain ⟨h1, h2⟩ := ih
    obtain ⟨e1, e2⟩ := WN_2d.batchState_recurrence cfg th sg pspect T s0 haq m
    constructor
    · rw [e1]
      exact (WN_2d.batchBody_lengths cfg th sg pspect T m _ _ n h1 h2).1
    · rw [e2]
      exact (WN_2d.batchBody_lengths cfg th sg pspect T m _ _ n h1 h2).2

/-! ### Expected queue collections -/

theorem WN_2d.qexp_length (cfg : WN2dCfg α) (A : ℕ → List (Frame α))
    (h u : ℕ) : (WN_2d.qexp cfg A h u).length = cfg.n_layers := by
  simp [WN_2d.qexp]

theorem WN_2d.qexp_getD (cfg : WN2dCfg α) (A : ℕ → List (Frame α))
    (h u j : ℕ) (hj : j < cfg.n_layers) :
    (WN_2d.qexp cfg A h u).getD j none
      = if j < u then some (WN_2d.window cfg (A j) j h)
        else if h = 0 then none else some (WN_2d.window cfg (A j) j (h - 1)) := by
  unfold WN_2d.qexp
  rw [List.getD_eq_getElem?_getD, List.getElem?_map, List.getElem?_range hj]
  rfl

theorem WN_2d.qexp_set (cfg : WN2dCfg α) (A : ℕ → List (Frame α)) (h u : ℕ)
    (hu : u < cfg.n_layers) :
    (WN_2d.qexp cfg A h u).set u (some (WN_2d.window cfg (A u) u h))
      = WN_2d.qexp cfg A h (u + 1) := by
  apply List.ext_getElem?
  intro j
  rw [List.getElem?_set]
  unfold WN_2d.qexp
  by_cases hj : u = j
  · subst hj
    rw [if_pos rfl, if_pos (by simp [hu])]
    rw [List.getElem?_map, List.getElem?_range hu]
    simp
  · rw [if_neg hj, List.getElem?_map, List.getElem?_map]
    by_cases hjL : j < cfg.n_layers
    · rw [List.getElem?_range hjL]
      have hne : (j < u) = (j < u + 1) := by
        apply propext
        constructor <;> intro hlt <;> omega
      simp [hne]
    · rw [List.getElem?_eq_none (by simp; omega)]
      simp

theorem WN_2d.qexp_zero_replicate (cfg : WN2dCfg α) (A : ℕ → List (Frame α)) :
    WN_2d.qexp cfg A 0 0 = List.replicate cfg.n_layers none := by
  apply List.ext_getElem?
  intro j
  unfold WN_2d.qexp
  rw [List.getElem?_map, List.getElem?_replicate]
  by_cases hj : j < cfg.n_layers
  · rw [List.getElem?_range hj, if_pos hj]
    simp
  · rw [List.getElem?_eq_none (by simp; omega), if_neg hj]
    simp

theorem WN_2d.qexp_rollover (cfg : WN2dCfg α) (A : ℕ → List (Frame α))
    (h : ℕ) :
    WN_2d.qexp cfg A h cfg.n_layers = WN_2d.qexp cfg A (h + 1) 0 := by
  unfold WN_2d.qexp
  apply List.map_congr_left
  intro j hj
  have hjL : j < cfg.n_layers := List.mem_range.1 hj
  simp [hjL]

/-- Inner induction of C1: at a fixed causal step `h`, running `k` streaming
layers from the sliced initial state and the expected queues produces the
height-`h` slice of the batch state after `k` layers, with the queues advanced
to the step-`h` windows of the first `k` layers. -/
theorem WN_2d.stream_runLayers_matches (cfg : WN2dCfg α) (th sg : α → α)
    (pspect : Frame α) (T : ℕ) (s0b : LState α) (haqb : s0b.aq = none)
    (n : ℕ) (hA0 : s0b.audio.length = n) (hO0 : s0b.output.length = n)
    (h : ℕ) (hh : h < n) (sp0 : Frame α) :
    ∀ k, k ≤ cfg.n_layers →
      ∃ sp, WN_2d.runLayers cfg th sg pspect true T k
          { audio := [frameGet s0b.audio h], output := [frameGet s0b.output h],
            aq := some (WN_2d.qexp cfg
              (fun j => (WN_2d.batchState cfg th sg pspect T s0b j).audio) h 0),
            sq := none, spec := sp0 }
        = .ok { audio := [frameGet
                    (WN_2d.batchState cfg th sg pspect T s0b k).audio h],
                output := [frameGet
                    (WN_2d.batchState cfg th sg pspect T s0b k).output h],
                aq := some (WN_2d.qexp cfg
                  (fun j => (WN_2d.batchState cfg th sg pspect T s0b j).audio)
                  h k),
                sq := none, spec := sp } := by
  intro k
  induction k with
  | zero =>
    intro _
    refine ⟨sp0, ?_⟩
    simp [WN_2d.runLayers, WN_2d.batchState_zero]
  | succ m ih =>
    intro hm1
    obtain ⟨sp, hrunm⟩ := ih (by omega)
    have hmL : m < cfg.n_layers := by omega
    obtain ⟨hAm, hOm⟩ := WN_2d.batchState_lengths cfg th sg pspect T s0b haqb
      n hA0 hO0 m
    have hqm : (WN_2d.qexp cfg
        (fun j => (WN_2d.batchState cfg th sg pspect T s0b j).audio) h m).getD
          m none
        = if h = 0 then none
          else some (WN_2d.window cfg
            (WN_2d.batchState cfg th sg pspect T s0b m).audio m (h - 1)) := by
      rw [WN_2d.qexp_getD _ _ h m m hmL]
      simp
    obtain ⟨hw2, hs1, hs2⟩ := WN_2d.streamBody_matches_batch cfg th sg pspect
      T m (WN_2d.batchState cfg th sg pspect T s0b m).audio
      (WN_2d.batchState cfg th sg pspect T s0b m).output n h hAm hOm hh
      ((WN_2d.qexp cfg
        (fun j => (WN_2d.batchState cfg th sg pspect T s0b j).audio) h m).getD
          m none) hqm
    have hq1 : (WN_2d.queueStep (WN_2d.padding_h cfg m)
        ((WN_2d.qexp cfg
          (fun j => (WN_2d.batchState cfg th sg pspect T s0b j).audio) h
          m).getD m none)
        [frameGet (WN_2d.batchState cfg th sg pspect T s0b m).audio h]).length
        = WN_2d.padding_h cfg m + 1 := by
      have he : WN_2d.queueStep (WN_2d.padding_h cfg m)
          ((WN_2d.qexp cfg
            (fun j => (WN_2d.batchState cfg th sg pspect T s0b j).audio) h
            m).getD m none)
          [frameGet (WN_2d.batchState cfg th sg pspect T s0b m).audio h]
          = (WN_2d.streamBody cfg th sg pspect T m
            [frameGet (WN_2d.batchState cfg th sg pspect T s0b m).audio h]
            [frameGet (WN_2d.batchState cfg th sg pspect T s0b m).output h]
            ((WN_2d.qexp cfg
              (fun j => (WN_2d.batchState cfg th sg pspect T s0b j).audio) h
              m).getD m none)).2 := rfl
      rw [he, hw2]
      exact WN_2d.window_length cfg
        (WN_2d.batchState cfg th sg pspect T s0b m).audio m h (by omega)
    have hbody := WN_2d.layerBody_stream_eq cfg th sg pspect T m
      { audio := [frameGet (WN_2d.batchState cfg th sg pspect T s0b m).audio h],
        output := [frameGet (WN_2d.batchState cfg th sg pspect T s0b m).output h],
        aq := some (WN_2d.qexp cfg
          (fun j => (WN_2d.batchState cfg th sg pspect T s0b j).audio) h m),
        sq := none, spec := sp }
      (WN_2d.qexp cfg
        (fun j => (WN_2d.batchState cfg th sg pspect T s0b j).audio) h m)
      rfl hq1
    have hstep : WN_2d.runLayers cfg th sg pspect true T (m + 1)
        { audio := [frameGet s0b.audio h], output := [frameGet s0b.output h],
          aq := some (WN_2d.qexp cfg
            (fun j => (WN_2d.batchState cfg th sg pspect T s0b j).audio) h 0),
          sq := none, spec := sp0 }
        = WN_2d.layerBody cfg th sg pspect true T m
          { audio := [frameGet (WN_2d.batchState cfg th sg pspect T s0b m).audio h],
            output := [frameGet (WN_2d.batchState cfg th sg pspect T s0b m).output h],
            aq := some (WN_2d.qexp cfg
              (fun j => (WN_2d.batchState cfg th sg pspect T s0b j).audio) h m),
            sq := none, spec := sp } := by
      simp only [WN_2d.runLayers]
      rw [hrunm]
    refine ⟨WN_2d.condSlice cfg pspect m, ?_⟩
    rw [hstep, hbody]
    dsimp only
    rw [hs1, hs2, hw2]
    rw [(WN_2d.batchState_recurrence cfg th sg pspect T s0b haqb m).1,
      (WN_2d.batchState_recurrence cfg th sg pspect T s0b haqb m).2]
    simp only [WN_2d.qexp_set cfg
      (fun j => (WN_2d.batchState cfg th sg pspect T s0b j).audio) h m hmL]

theorem frameGet_map_of_getElem (g : (ℕ → ℕ → α) → Frame α)
    (xs : List (ℕ → ℕ → α)) (h : ℕ) (sl : ℕ → ℕ → α) (hx : xs[h]? = some sl) :
    frameGet (xs.map g) h = g sl := by
  simp [frameGet, List.getD_eq_getElem?_getD, List.getElem?_map, hx]

theorem WN_2d.batchInit_lengths (cfg : WN2dCfg α) (audio : List (ℕ → ℕ → α)) :
    (WN_2d.batchInit cfg audio).audio.length = audio.length ∧
    (WN_2d.batchInit cfg audio).output.length = audio.length := by
  unfold WN_2d.batchInit
  by_cases hm : cfg.merge_res_skip = true <;> simp [hm]

/-- The pre-loop state of a streaming call on the single height slice `sl`
is exactly the height-`h` slice of the batch pre-loop state, when `sl` is the
height-`h` entry of the full input. -/
theorem WN_2d.batchInit_slice (cfg : WN2dCfg α) (aIn : List (ℕ → ℕ → α))
    (h : ℕ) (hh : h < aIn.length) (sl : ℕ → ℕ → α) (hsl : aIn[h]? = some sl) :
    List.map (fun f => conv1x1Frame 1 cfg.startW cfg.startB
        fun b _ t => f b t) [sl]
      = [frameGet (WN_2d.batchInit cfg aIn).audio h] ∧
    (if cfg.merge_res_skip then
        List.map (fun f => conv1x1Frame 1 cfg.startW cfg.startB
          fun b _ t => f b t) [sl]
      else List.map (fun _ => zeroFrame)
        (List.map (fun f => conv1x1Frame 1 cfg.startW cfg.startB
          fun b _ t => f b t) [sl]))
      = [frameGet (WN_2d.batchInit cfg aIn).output h] := by
  have ha : frameGet (List.map (fun f => conv1x1Frame 1 cfg.startW cfg.startB
      fun b _ t => f b t) aIn) h
      = conv1x1Frame 1 cfg.startW cfg.startB fun b _ t => sl b t :=
    frameGet_map_of_getElem _ aIn h sl hsl
  have hz : frameGet (List.map (fun _ => (zeroFrame : Frame α))
      (List.map (fun f => conv1x1Frame 1 cfg.startW cfg.startB
        fun b _ t => f b t) aIn)) h = zeroFrame := by
    rw [frameGet_map _ _ h (by simpa using hh)]
  constructor
  · simp only [WN_2d.batchInit, List.map_cons, List.map_nil, ha]
  · simp only [WN_2d.batchInit, List.map_cons, List.map_nil]
    split_ifs
    · rw [ha]
    · rw [hz]

/-- Per-step refinement of C1: a streaming `WN_2d.forward` call on the
height-`h` slice, with the expected queues for step `h`, returns the
height-`h` slice of the batch output together with the expected queues for
step `h+1`. -/
theorem WN_2d.forward_stream_step (cfg : WN2dCfg α) (th sg : α → α)
    (interp : (ℕ → ℕ → ℕ → α) → ℕ → ℕ → ℕ → ℕ → ℕ → α)
    (spect : Frame α) (T_cond T : ℕ) (sid : Option (ℕ → ℕ)) (pspect : Frame α)
    (hps : pspect = WN_2d.processSpect cfg interp spect T_cond T sid)
    (aIn : List (ℕ → ℕ → α)) (n : ℕ) (hn : aIn.length = n) (h : ℕ) (hh : h < n)
    (sl : ℕ → ℕ → α) (hsl : aIn[h]? = some sl) :
    WN_2d.forward cfg th sg interp [sl] spect T_cond T sid
        (some (WN_2d.qexp cfg (WN_2d.batchAudio cfg th sg pspect T aIn) h 0))
        none
      = .ok (.withState [frameGet (WN_2d.batchOut cfg th sg pspect T aIn) h]
          (WN_2d.qexp cfg (WN_2d.batchAudio cfg th sg pspect T aIn) (h + 1) 0)
          none) := by
  subst hps
  have heq : ∀ aqx : List (Option (List (Frame α))),
      WN_2d.forward cfg th sg interp [sl] spect T_cond T sid (some aqx) none
      = (match WN_2d.runLayers cfg th sg
            (WN_2d.processSpect cfg interp spect T_cond T sid) true T
            cfg.n_layers
            { audio := List.map (fun f => conv1x1Frame 1 cfg.startW cfg.startB
                fun b _ t => f b t) [sl],
              output := if cfg.merge_res_skip then
                  List.map (fun f => conv1x1Frame 1 cfg.startW cfg.startB
                    fun b _ t => f b t) [sl]
                else List.map (fun _ => zeroFrame)
                  (List.map (fun f => conv1x1Frame 1 cfg.startW cfg.startB
                    fun b _ t => f b t) [sl]),
              aq := some aqx, sq := none, spec := zeroFrame } with
        | .error e => .error e
        | .ok sF =>
          match sF.aq, sF.sq with
          | some a, some s2x => .ok (.withState (sF.output.map fun f =>
              transpose10 (conv1x1Frame cfg.n_channels cfg.endW cfg.endB f))
              a (some s2x))
          | some a, none => .ok (.withState (sF.output.map fun f =>
              transpose10 (conv1x1Frame cfg.n_channels cfg.endW cfg.endB f))
              a none)
          | none, some _ =>
            .error (.attributeError "Tensor object has no attribute append")
          | none, none => .ok (.tensor (sF.output.map fun f =>
              transpose10 (conv1x1Frame cfg.n_channels cfg.endW cfg.endB f)))) :=
    fun aqx => rfl
  obtain ⟨hba, hbo⟩ := WN_2d.batchInit_slice cfg aIn h (by omega) sl hsl
  obtain ⟨hA0, hO0⟩ := WN_2d.batchInit_lengths cfg aIn
  obtain ⟨sp, hrun⟩ := WN_2d.stream_runLayers_matches cfg th sg
    (WN_2d.processSpect cfg interp spect T_cond T sid) T
    (WN_2d.batchInit cfg aIn) rfl n (hA0.trans hn) (hO0.trans hn) h hh
    zeroFrame cfg.n_layers (le_refl _)
  have hAB : (fun j => (WN_2d.batchState cfg th sg
      (WN_2d.processSpect cfg interp spect T_cond T sid) T
      (WN_2d.batchInit cfg aIn) j).audio)
      = WN_2d.batchAudio cfg th sg
        (WN_2d.processSpect cfg interp spect T_cond T sid) T aIn := rfl
  rw [hAB] at hrun
  have hoblen : h < (WN_2d.batchState cfg th sg
      (WN_2d.processSpect cfg interp spect T_cond T sid) T
      (WN_2d.batchInit cfg aIn) cfg.n_layers).output.length := by
    rw [(WN_2d.batchState_lengths cfg th sg
      (WN_2d.processSpect cfg interp spect T_cond T sid) T
      (WN_2d.batchInit cfg aIn) rfl n (hA0.trans hn) (hO0.trans hn)
      cfg.n_layers).2]
    exact hh
  rw [heq, hbo, hba, hrun]
  dsimp only
  rw [WN_2d.qexp_rollover]
  simp only [WN_2d.batchOut, List.map_cons, List.map_nil,
    frameGet_map _ _ h hoblen]

/-- Batch-mode `WN_2d.forward` (`audio_queues = spect_queues = None`) returns
the plain tensor built from the final skip accumulator. -/
theorem WN_2d.forward_batch_eq (cfg : WN2dCfg α) (th sg : α → α)
    (interp : (ℕ → ℕ → ℕ → α) → ℕ → ℕ → ℕ → ℕ → ℕ → α)
    (spect : Frame α) (T_cond T : ℕ) (sid : Option (ℕ → ℕ)) (pspect : Frame α)
    (hps : pspect = WN_2d.processSpect cfg interp spect T_cond T sid)
    (aIn : List (ℕ → ℕ → α)) :
    WN_2d.forward cfg th sg interp aIn spect T_cond T sid none none
      = .ok (.tensor (WN_2d.batchOut cfg th sg pspect T aIn)) := by
  subst hps
  have heq : WN_2d.forward cfg th sg interp aIn spect T_cond T sid none none
      = (match WN_2d.runLayers cfg th sg
            (WN_2d.processSpect cfg interp spect T_cond T sid) true T
            cfg.n_layers (WN_2d.batchInit cfg aIn) with
        | .error e => .error e
        | .ok sF =>
          match sF.aq, sF.sq with
          | some a, some s2x => .ok (.withState (sF.output.map fun f =>
              transpose10 (conv1x1Frame cfg.n_channels cfg.endW cfg.endB f))
              a (some s2x))
          | some a, none => .ok (.withState (sF.output.map fun f =>
              transpose10 (conv1x1Frame cfg.n_channels cfg.endW cfg.endB f))
              a none)
          | none, some _ =>
            .error (.attributeError "Tensor object has no attribute append")
          | none, none => .ok (.tensor (sF.output.map fun f =>
              transpose10 (conv1x1Frame cfg.n_channels cfg.endW cfg.endB f)))) :=
    rfl
  obtain ⟨hrun, haqL, hsqL⟩ := WN_2d.batch_runLayers_ok cfg th sg
    (WN_2d.processSpect cfg interp spect T_cond T sid) T
    (WN_2d.batchInit cfg aIn) rfl cfg.n_layers
  have hsq2 : (WN_2d.batchState cfg th sg
      (WN_2d.processSpect cfg interp spect T_cond T sid) T
      (WN_2d.batchInit cfg aIn) cfg.n_layers).sq = none := hsqL
  rw [heq, hrun]
  simp only [haqL, hsq2]
  rw [WN_2d.batchOut]

/-- Outer induction of C1: from any suffix of the input and the expected
queues for the first uncovered step, the streaming driver returns exactly the
remaining height slices of the batch output, ending with the expected queues
after all `n` steps. -/
theorem WN_2d.streamRun_matches (cfg : WN2dCfg α) (th sg : α → α)
    (interp : (ℕ → ℕ → ℕ → α) → ℕ → ℕ → ℕ → ℕ → ℕ → α)
    (spect : Frame α) (T_cond T : ℕ) (sid : Option (ℕ → ℕ)) (pspect : Frame α)
    (hps : pspect = WN_2d.processSpect cfg interp spect T_cond T sid)
    (aIn : List (ℕ → ℕ → α)) (n : ℕ) (hn : aIn.length = n) :
    ∀ rest : List (ℕ → ℕ → α), ∀ h : ℕ, rest = aIn.drop h → h ≤ n →
      WN_2d.streamRun cfg th sg interp spect T_cond T sid rest
          (WN_2d.qexp cfg (WN_2d.batchAudio cfg th sg pspect T aIn) h 0)
        = .ok ((WN_2d.batchOut cfg th sg pspect T aIn).drop h,
            WN_2d.qexp cfg (WN_2d.batchAudio cfg th sg pspect T aIn) n 0) := by
  subst hps
  have holen : (WN_2d.batchOut cfg th sg
      (WN_2d.processSpect cfg interp spect T_cond T sid) T aIn).length = n := by
    obtain ⟨hA0, hO0⟩ := WN_2d.batchInit_lengths cfg aIn
    rw [WN_2d.batchOut, List.length_map]
    exact (WN_2d.batchState_lengths cfg th sg
      (WN_2d.processSpect cfg interp spect T_cond T sid) T
      (WN_2d.batchInit cfg aIn) rfl n (hA0.trans hn) (hO0.trans hn)
      cfg.n_layers).2
  intro rest
  induction rest with
  | nil =>
    intro h hrest hh
    have hlen := congrArg List.length hrest
    simp only [List.length_nil, List.length_drop, hn] at hlen
    have hn2 : h = n := by omega
    subst hn2
    rw [List.drop_eq_nil_of_le (le_of_eq holen)]
    simp [WN_2d.streamRun]
  | cons sl rest2 ih =>
    intro h hrest hh
    have hlen := congrArg List.length hrest
    simp only [List.length_cons, List.length_drop, hn] at hlen
    have hh2 : h < n := by omega
    have hsl : aIn[h]? = some sl := by
      have h0 : (aIn.drop h)[0]? = some sl := by
        rw [← hrest]
        simp
      rw [List.getElem?_drop] at h0
      simpa using h0
    have hrest2 : rest2 = aIn.drop (h + 1) := by
      have hd : (aIn.drop h).drop 1 = aIn.drop (h + 1) := by
        rw [List.drop_drop]
      rw [← hrest] at hd
      simpa using hd
    have hstep := WN_2d.forward_stream_step cfg th sg interp spect T_cond T
      sid (WN_2d.processSpect cfg interp spect T_cond T sid) rfl aIn n hn h
      hh2 sl hsl
    have hih := ih (h + 1) hrest2 (by omega)
    simp only [WN_2d.streamRun]
    rw [hstep]
    dsimp only
    rw [hih]
    dsimp only
    have hob : h < (WN_2d.batchOut cfg th sg
        (WN_2d.processSpect cfg interp spect T_cond T sid) T aIn).length := by
      omega
    have hfg : frameGet (WN_2d.batchOut cfg th sg
        (WN_2d.processSpect cfg interp spect T_cond T sid) T aIn) h
        = (WN_2d.batchOut cfg th sg
          (WN_2d.processSpect cfg interp spect T_cond T sid) T aIn)[h] := by
      simp [frameGet, List.getD_eq_getElem?_getD, List.getElem?_eq_getElem hob]
    rw [hfg, List.singleton_append, ← List.drop_eq_getElem_cons hob]

/-- C1: for every `WN_2d` instance and every fixed input sequence, running one
streaming `forward` call per causal slice — `audio_queues` initialized to
`n_layers` `None` entries and the returned queue collection threaded into each
subsequent call — succeeds, and the concatenation of the step outputs along
the causal dimension equals (exactly, over any commutative ring) the output of
a single batch-mode call (`audio_queues = spect_queues = None`) on the full
sequence. -/
theorem WN_2d.stream_matches_batch (cfg : WN2dCfg α) (th sg : α → α)
    (interp : (ℕ → ℕ → ℕ → α) → ℕ → ℕ → ℕ → ℕ → ℕ → α)
    (spect : Frame α) (T_cond T : ℕ) (sid : Option (ℕ → ℕ))
    (aIn : List (ℕ → ℕ → α)) :
    ∃ out qfin,
      WN_2d.streamRun cfg th sg interp spect T_cond T sid aIn
          (List.replicate cfg.n_layers none) = .ok (out, qfin) ∧
      WN_2d.forward cfg th sg interp aIn spect T_cond T sid none none
        = .ok (.tensor out) := by
  refine ⟨WN_2d.batchOut cfg th sg
      (WN_2d.processSpect cfg interp spect T_cond T sid) T aIn,
    WN_2d.qexp cfg (WN_2d.batchAudio cfg th sg
      (WN_2d.processSpect cfg interp spect T_cond T sid) T aIn) aIn.length 0,
    ?_, ?_⟩
  · have hmain := WN_2d.streamRun_matches cfg th sg interp spect T_cond T sid
      (WN_2d.processSpect cfg interp spect T_cond T sid) rfl aIn aIn.length
      rfl aIn 0 (by simp) (Nat.zero_le _)
    rw [← WN_2d.qexp_zero_replicate cfg (WN_2d.batchAudio cfg th sg
      (WN_2d.processSpect cfg interp spect T_cond T sid) T aIn)]
    simpa using hmain
  · exact WN_2d.forward_batch_eq cfg th sg interp spect T_cond T sid
      (WN_2d.processSpect cfg interp spect T_cond T sid) rfl aIn

end CookieTTS
